import Mathlib

/-!
Shallow embedding of the credit-visual backend ingestion pipeline and
subscription detector (`backend/app/services`): the merchant normalizer
(`normalizer/merchant.py`), the amount parser (`extractor/common.py`), the
extraction coordinator (`importer.py`), the recurrence detector
(`subscription/detector.py`) and the ingestion pipeline (`importer.py`).
Python floats are modelled as exact rationals, datetimes as rational
timestamps measured in days (so `.date()` is the floor), and the database
session as explicit state.
-/

/-- Python truthiness of an optional string: `None` and `""` are falsy. -/
def strTruthy : Option String → Bool
  | none => false
  | some s => !(s == "")

/-- Python `a or b` on two optional strings (e.g. `card_last4 or token_last4`
in detector.py line 31 and importer.py line 149). -/
def pyOrOpt (a b : Option String) : Option String :=
  if strTruthy a then a else b

/-- Python `a or b` where `b` is a plain string (e.g.
`tx.merchant_norm or tx.merchant_raw`, detector.py line 30). -/
def pyOrStr (a : Option String) (b : String) : String :=
  match a with
  | some s => if s = "" then b else s
  | none => b

/-! ### Merchant normalizer (`normalizer/merchant.py`, `normalize_name`) -/

/-- The whitespace class used by `str.strip()` and the regex `\s`
(ASCII whitespace characters). -/
def isWsC (c : Char) : Bool :=
  c == ' ' || c == '\t' || c == '\n' || c == '\r' || c == '\x0b' || c == '\x0c'

/-- `str.lower()` on a single character (ASCII case mapping). -/
def lowerC (c : Char) : Char :=
  if 65 ≤ c.toNat ∧ c.toNat ≤ 90 then Char.ofNat (c.toNat + 32) else c

/-- The punctuation-noise class of `re.sub(r"[\*\#\|\(\)]", " ", name)`. -/
def isPunctC (c : Char) : Bool :=
  c == '*' || c == '#' || c == '|' || c == '(' || c == ')'

/-- Drop trailing whitespace (the right half of `str.strip()`). -/
def dropTrailWs (l : List Char) : List Char :=
  (l.reverse.dropWhile isWsC).reverse

/-- `str.strip()`. -/
def stripWs (l : List Char) : List Char :=
  dropTrailWs (l.dropWhile isWsC)

/-- `re.sub(r"\s+", " ", name)`: replace every maximal whitespace run by a
single space. -/
def collapseWs : List Char → List Char
  | [] => []
  | c :: rest =>
    if isWsC c then ' ' :: collapseWs (rest.dropWhile isWsC)
    else c :: collapseWs rest
termination_by l => l.length
decreasing_by
  · simp only [List.length_cons]
    exact Nat.lt_succ_of_le (List.dropWhile_suffix _).length_le
  · simp

/-- The substitution `re.sub(r"[\*\#\|\(\)]", " ", name)` on one character. -/
def substPunct (c : Char) : Char :=
  if isPunctC c then ' ' else c

/-- `normalize_name` (merchant.py lines 7-11): strip, lowercase, collapse
punctuation noise to spaces, collapse whitespace runs, strip again. -/
def normalize_name (raw : String) : String :=
  ⟨stripWs (collapseWs (((stripWs raw.data).map lowerC).map substPunct))⟩

/-! ### Amount parser (`extractor/common.py`, `extract_amount_yen`) -/

/-- `[0-9,]` of the amount regex. -/
def isDigitComma (c : Char) : Bool := c.isDigit || c == ','

/-- The leading character class of `r"([¥\\u00a5]?)..."`: the source uses a
raw string, so the class holds the literal characters ¥, backslash, u, 0, a
and 5 (not a second escape for U+00A5). -/
def isYenClass (c : Char) : Bool :=
  c == '¥' || c == '\\' || c == 'u' || c == '0' || c == 'a' || c == '5'

/-- Attempt `[0-9,]+\s*円` at the head of `l`; return the `[0-9,]+` group.
A shorter-than-maximal numeral run can never succeed (the next character
would be a digit or comma, which is neither whitespace nor 円), so maximal
munch is exact here. -/
def amountCore (l : List Char) : Option (List Char) :=
  let run := l.takeWhile isDigitComma
  if run.isEmpty then none
  else
    match (l.dropWhile isDigitComma).dropWhile isWsC with
    | '円' :: _ => some run
    | _ => none

/-- Attempt the full pattern `([¥\\u00a5]?)([0-9,]+)\s*円` at the head of
`l`: the optional group is tried greedily first. -/
def amountMatchAt (l : List Char) : Option (List Char) :=
  match l with
  | [] => none
  | c :: rest =>
    if isYenClass c then
      match amountCore rest with
      | some g => some g
      | none => amountCore (c :: rest)
    else amountCore (c :: rest)

/-- `re.search`: the leftmost successful match wins. -/
def findAmountGroup : List Char → Option (List Char)
  | [] => none
  | c :: rest =>
    match amountMatchAt (c :: rest) with
    | some g => some g
    | none => findAmountGroup rest

/-- Decimal value of a digit string (`int(...)`). -/
def digitsVal (l : List Char) : ℕ :=
  l.foldl (fun n c => 10 * n + (c.toNat - 48)) 0

/-- `extract_amount_yen` (common.py lines 35-40). `Except.error` models the
`ValueError` that `int("")` raises when the matched group consists only of
commas; `Except.ok none` is a missing match. -/
def extract_amount_yen (body : String) : Except String (Option Int) :=
  match findAmountGroup body.data with
  | none => Except.ok none
  | some g =>
    let ds := g.filter (fun c => !(c == ','))
    if ds.isEmpty then Except.error "ValueError"
    else Except.ok (some ((digitsVal ds : Int) * 100))

/-- Python `needle in hay` on strings (substring containment). -/
def containsSub (needle : List Char) : List Char → Bool
  | [] => needle.isPrefixOf []
  | c :: rest => needle.isPrefixOf (c :: rest) || containsSub needle rest

/-! ### Extraction coordinator (`importer.py`, `_pick_extractor` and
`_extract_transaction_data`) -/

/-- The parsed-email record produced by `parse_eml` (common.py lines 19-32).
The date is modelled as an already-parsed rational timestamp in days
(`None` covers both a missing header and an unparsable date string). -/
structure RawEmail where
  message_id : Option String
  from_addr : String
  subject : String
  date : Option ℚ
  body : String

/-- The payload dict returned by a plugin's `extract` (keys may be missing,
hence the options; `_extract_transaction_data` applies the `.get` defaults). -/
structure ExtractPayload where
  merchant_raw : Option String := none
  merchant_norm : Option String := none
  amount_cents : Option Int := none
  currency : Option String := none
  purchased_at : Option ℚ := none
  card_last4 : Option String := none
  token_last4 : Option String := none
  wallet_type : Option String := none
  product_hint : Option String := none
  issuer : Option String := none
  status : Option String := none
  flags : List (String × String) := []

/-- An extractor plugin (`extractor/base.py`): `score` returns `none` when
the call raises (importer.py line 208 skips it); `extract` returns `none`
for a null result, a raised exception (importer.py line 162) or a falsy
payload. -/
structure Plugin where
  score : RawEmail → Option ℚ
  extract : RawEmail → Option ExtractPayload

/-- `MIN_SCORE = 0.3` (importer.py line 42). -/
def MIN_SCORE : ℚ := 3 / 10

/-- The loop of `_pick_extractor` (importer.py lines 205-212): running best
score and best extractor, strict `score > best_score` comparison. -/
def pickBest (e : RawEmail) : List Plugin → ℚ → Option Plugin → ℚ × Option Plugin
  | [], best, bp => (best, bp)
  | p :: rest, best, bp =>
    match p.score e with
    | none => pickBest e rest best bp
    | some sc => if best < sc then pickBest e rest sc (some p) else pickBest e rest best bp

/-- `_pick_extractor` (importer.py lines 202-215). -/
def pickExtractor (plugins : List Plugin) (e : RawEmail) : Option Plugin :=
  if (pickBest e plugins 0 none).1 < MIN_SCORE then none
  else (pickBest e plugins 0 none).2

/-- The final transaction field record built by `_extract_transaction_data`
(importer.py lines 175-188). -/
structure TxData where
  merchant_raw : String
  merchant_norm : Option String
  amount_cents : Int
  currency : String
  purchased_at : ℚ
  card_last4 : Option String
  token_last4 : Option String
  wallet_type : Option String
  product_hint : Option String
  issuer : Option String
  status : String
  flags : List (String × String)
deriving DecidableEq

/-- Lines 168-188 of importer.py: apply the `.get` defaults, normalize the
merchant when no normalized name came from the plugin, and fall back to the
message's receive time for the purchase time (`_coerce_datetime` is the
identity on an already-parsed timestamp). -/
def buildTxData (payload : ExtractPayload) (received_at : ℚ) : TxData :=
  let merchant_raw := payload.merchant_raw.getD ""
  let merchant_norm :=
    if !strTruthy payload.merchant_norm && !(merchant_raw == "") then
      some (normalize_name merchant_raw)
    else payload.merchant_norm
  { merchant_raw := merchant_raw
    merchant_norm := merchant_norm
    amount_cents := payload.amount_cents.getD 0
    currency := payload.currency.getD "JPY"
    purchased_at := payload.purchased_at.getD received_at
    card_last4 := payload.card_last4
    token_last4 := payload.token_last4
    wallet_type := payload.wallet_type
    product_hint := payload.product_hint
    issuer := payload.issuer
    status := payload.status.getD "confirmed"
    flags := payload.flags }

/-- `_extract_transaction_data` (importer.py lines 155-188): pick the best
scorer; if none clears the threshold, or the selected plugin's `extract`
yields nothing, the result is no-match — no fallback to other plugins. -/
def extractTransactionData (plugins : List Plugin) (e : RawEmail) (received_at : ℚ) :
    Option TxData :=
  match pickExtractor plugins e with
  | none => none
  | some p =>
    match p.extract e with
    | none => none
    | some payload => some (buildTxData payload received_at)

/-! ### Recurrence detector (`subscription/detector.py`) -/

/-- A persisted transaction as consumed by `detect_subscriptions`
(the fields the detector touches; `purchased_at` is a rational timestamp in
days, whose floor is the calendar date). -/
structure Txn where
  merchant_norm : Option String
  merchant_raw : String
  amount_cents : Int
  purchased_at : ℚ
  card_last4 : Option String
  token_last4 : Option String
  wallet_type : Option String
  product_hint : Option String
deriving DecidableEq

/-- The grouping key of detector.py line 31:
`(merchant, tx.card_last4 or tx.token_last4, tx.wallet_type or tx.product_hint)`. -/
abbrev GroupKey := String × Option String × Option String

/-- Key of one transaction (detector.py lines 30-31). -/
def keyOf (t : Txn) : GroupKey :=
  (pyOrStr t.merchant_norm t.merchant_raw,
   pyOrOpt t.card_last4 t.token_last4,
   pyOrOpt t.wallet_type t.product_hint)

/-- The keys of the `defaultdict` in first-occurrence order (Python dict
iteration order). -/
def groupKeys (ts : List Txn) : List GroupKey :=
  ts.foldl (fun acc t => if keyOf t ∈ acc then acc else acc ++ [keyOf t]) []

/-- The member list of one group, in input order. -/
def groupOf (ts : List Txn) (k : GroupKey) : List Txn :=
  ts.filter (fun t => decide (keyOf t = k))

/-- `txs.sort(key=lambda t: t.purchased_at)` — a stable sort by timestamp. -/
def sortByDate (g : List Txn) : List Txn :=
  List.insertionSort (fun a b => a.purchased_at ≤ b.purchased_at) g

/-- `positive_txs` (detector.py line 37): the chronologically sorted
transactions with strictly positive amount. -/
def sortedPositives (g : List Txn) : List Txn :=
  (sortByDate g).filter (fun t => decide (0 < t.amount_cents))

/-- `amounts` (detector.py line 41). -/
def amountsOf (g : List Txn) : List Int :=
  (sortedPositives g).map (·.amount_cents)

/-- `dates` (detector.py line 42): `purchased_at.date()` as day numbers. -/
def datesOf (g : List Txn) : List Int :=
  (sortedPositives g).map (fun t => ⌊t.purchased_at⌋)

/-- Consecutive differences (`deltas`, detector.py lines 43-46). -/
def gapsOf : List Int → List Int
  | a :: b :: rest => (b - a) :: gapsOf (b :: rest)
  | _ => []

/-- `deltas` of one group. -/
def deltasOf (g : List Txn) : List Int := gapsOf (datesOf g)

/-- Number of gaps inside a `[lo, hi]` tolerance window. -/
def countInWindow (deltas : List Int) (lo hi : Int) : ℕ :=
  (deltas.filter (fun d => decide (lo ≤ d ∧ d ≤ hi))).length

/-- `_calculate_periodicity_score` (detector.py lines 87-101), with windows
weekly `[6, 8]`, monthly `[27, 33]`, yearly `[358, 372]`. -/
def periodicityScore (deltas : List Int) : ℚ :=
  if deltas.isEmpty then 0
  else
    let best := max (countInWindow deltas 6 8)
      (max (countInWindow deltas 27 33) (countInWindow deltas 358 372))
    min 1 ((best : ℚ) / ((max 1 deltas.length : ℕ) : ℚ))

/-- `statistics.median`: middle element of the ascending sort, or the mean
of the two middle elements for an even count. -/
def medianQ (l : List Int) : ℚ :=
  let s := List.insertionSort (fun a b : Int => a ≤ b) l
  let n := s.length
  if n % 2 = 1 then ((s.getD (n / 2) 0 : Int) : ℚ)
  else (((s.getD (n / 2 - 1) 0 : Int) : ℚ) + ((s.getD (n / 2) 0 : Int) : ℚ)) / 2

/-- `_calculate_amount_stability` (detector.py lines 123-130). -/
def stabilityScore (amounts : List Int) : ℚ :=
  if amounts.isEmpty then 0
  else
    let med := medianQ amounts
    if med = 0 then 0
    else
      ((amounts.filter (fun a : Int => decide (|(a : ℚ) - med| / med ≤ 1 / 10))).length : ℚ)
        / (amounts.length : ℚ)

/-- The keyword list of `_vocab_signal` (detector.py line 134). -/
def subscriptionKeywords : List String :=
  ["subscription", "サブス", "会費", "月額", "定期"]

/-- Python `max(scores) if scores else 0`. -/
def pyMaxQ : List ℚ → ℚ
  | [] => 0
  | h :: t => t.foldl max h

/-- `str.lower()`. -/
def lowerStr (s : String) : String := ⟨s.data.map lowerC⟩

/-- `_vocab_signal` (detector.py lines 133-141): 1.0 on a keyword hit,
otherwise the best `fuzz.partial_ratio` on a 0-100 scale divided by 100.
The rapidfuzz similarity is an external library function and enters as the
parameter `pfr`. -/
def vocabSignal (pfr : String → String → ℚ) (merchant : String) : ℚ :=
  let normalized := lowerStr merchant
  if subscriptionKeywords.any (fun kw => containsSub kw.data normalized.data) then 1
  else pyMaxQ (subscriptionKeywords.map (fun kw => pfr normalized kw)) / 100

/-- The unrounded weighted sum of detector.py line 52:
`0.5 * periodicity + 0.3 * stability + 0.2 * vocab`. -/
def rawConfidence (pfr : String → String → ℚ) (merchant : String) (g : List Txn) : ℚ :=
  1 / 2 * periodicityScore (deltasOf g) + 3 / 10 * stabilityScore (amountsOf g)
    + 1 / 5 * vocabSignal pfr merchant

/-- Python `round` to an integer: round-half-to-even. -/
def roundHalfEven (q : ℚ) : ℤ :=
  if q - ⌊q⌋ < 1 / 2 then ⌊q⌋
  else if 1 / 2 < q - ⌊q⌋ then ⌊q⌋ + 1
  else if ⌊q⌋ % 2 = 0 then ⌊q⌋ else ⌊q⌋ + 1

/-- Python `round(x, 2)`. -/
def roundTo2 (q : ℚ) : ℚ := (roundHalfEven (100 * q) : ℚ) / 100

/-- Python `min` over a nonempty int list. -/
def pyMinI : List Int → Int
  | [] => 0
  | h :: t => t.foldl min h

/-- Python `max` over a nonempty int list. -/
def pyMaxI : List Int → Int
  | [] => 0
  | h :: t => t.foldl max h

/-- `_period_histogram` (detector.py lines 104-120): weekly, monthly,
yearly, other. The elif chain equals independent counts because the three
windows are disjoint. -/
def histogramOf (deltas : List Int) : ℕ × ℕ × ℕ × ℕ :=
  (countInWindow deltas 6 8, countInWindow deltas 27 33, countInWindow deltas 358 372,
   (deltas.filter (fun d =>
     decide (¬(6 ≤ d ∧ d ≤ 8) ∧ ¬(27 ≤ d ∧ d ≤ 33) ∧ ¬(358 ≤ d ∧ d ≤ 372)))).length)

/-- `_pick_cadence` (detector.py lines 144-154): label from the average gap. -/
def pickCadence (deltas : List Int) : String :=
  if deltas.isEmpty then "unknown"
  else
    let avg : ℚ := ((deltas.sum : Int) : ℚ) / (deltas.length : ℚ)
    if 24 ≤ avg ∧ avg ≤ 36 then "monthly"
    else if 6 ≤ avg ∧ avg ≤ 8 then "weekly"
    else if 350 ≤ avg ∧ avg ≤ 380 then "yearly"
    else "irregular"

/-- The `signals` bag (detector.py lines 57-68). -/
structure Signals where
  periodicity : ℚ
  stability : ℚ
  vocab : ℚ
  token_last4 : Option String
  wallet_type : Option String
  product_hint : Option String
  period_histogram : ℕ × ℕ × ℕ × ℕ
  amount_min : Int
  amount_max : Int
  transactions : ℕ
deriving DecidableEq

/-- `SubscriptionCandidate` (detector.py lines 14-24); dates as day numbers. -/
structure SubscriptionCandidate where
  merchant_norm : String
  cadence : String
  amount_cents_min : Int
  amount_cents_max : Int
  card_last4 : Option String
  first_seen : Int
  last_seen : Int
  confidence : ℚ
  signals : Signals
deriving DecidableEq

/-- The per-group body of the loop in `detect_subscriptions`
(detector.py lines 35-82). -/
def processGroup (pfr : String → String → ℚ) (merchant : String) (g : List Txn) :
    Option SubscriptionCandidate :=
  let positive := sortedPositives g
  if positive.length < 3 then none
  else
    let amounts := amountsOf g
    let dates := datesOf g
    let deltas := deltasOf g
    let conf := rawConfidence pfr merchant g
    if conf < 1 / 2 then none
    else
      some
        { merchant_norm := merchant
          cadence := pickCadence deltas
          amount_cents_min := pyMinI amounts
          amount_cents_max := pyMaxI amounts
          card_last4 := positive.head?.bind (·.card_last4)
          first_seen := pyMinI dates
          last_seen := pyMaxI dates
          confidence := roundTo2 conf
          signals :=
            { periodicity := periodicityScore deltas
              stability := stabilityScore amounts
              vocab := vocabSignal pfr merchant
              token_last4 := positive.head?.bind (·.token_last4)
              wallet_type := positive.head?.bind (·.wallet_type)
              product_hint := positive.head?.bind (·.product_hint)
              period_histogram := histogramOf deltas
              amount_min := pyMinI amounts
              amount_max := pyMaxI amounts
              transactions := positive.length } }

/-- `detect_subscriptions` (detector.py lines 27-84): group, score, filter. -/
def detect_subscriptions (pfr : String → String → ℚ) (ts : List Txn) :
    List SubscriptionCandidate :=
  (groupKeys ts).filterMap (fun k => processGroup pfr k.1 (groupOf ts k))

/-! ### Ingestion pipeline (`importer.py`) -/

/-- A provider message id: either the parsed `Message-ID`
(`email.get("message_id")`) or the synthesized `f"local-{uuid4()}"`
(importer.py line 100). Synthesized ids are modelled by a fresh counter,
reflecting that `uuid4` never repeats. -/
inductive PId where
  | real (s : String)
  | synth (n : ℕ)
deriving DecidableEq

/-- A persisted `Message` row (models/message.py); numeric ids stand for the
generated uuid strings, and `raw_kept` records whether the raw content was
retained (`raw_encrypted`, importer.py line 121). -/
structure Msg where
  id : ℕ
  user_id : String
  provider_msg_id : PId
  from_addr : String
  subject : String
  received_at : ℚ
  card_hint : Option String
  issuer_hint : Option String
  raw_kept : Bool
deriving DecidableEq

/-- A persisted `Transaction` row (models/transaction.py). -/
structure TxRow where
  id : ℕ
  user_id : String
  message_id : ℕ
  data : TxData
deriving DecidableEq

/-- The database session state: pending plus committed rows, and the fresh
uuid counter. -/
structure Db where
  messages : List Msg
  transactions : List TxRow
  fresh : ℕ
deriving DecidableEq

/-- `ImportStats` (importer.py lines 21-28). -/
structure ImportStats where
  processed : ℕ := 0
  ingested_messages : ℕ := 0
  transactions_created : ℕ := 0
  duplicates : ℕ := 0
  no_match : ℕ := 0
  errors : List String := []
deriving DecidableEq

/-- `email.get("message_id") or f"local-{uuid4()}"` (importer.py line 100):
a falsy message id consumes a fresh uuid. -/
def synthPid (e : RawEmail) (db : Db) : PId × Db :=
  if strTruthy e.message_id then (PId.real (e.message_id.getD ""), db)
  else (PId.synth db.fresh, { db with fresh := db.fresh + 1 })

/-- `_process_email` (importer.py lines 92-152): duplicate check on
`(user_id, provider_msg_id)`, then persist the Message, run extraction, and
on success persist the Transaction and backfill the Message hints. -/
def processEmail (plugins : List Plugin) (retention : Bool) (user : String) (now : ℚ)
    (e : RawEmail) (db : Db) (stats : ImportStats) : Db × ImportStats :=
  let pd := synthPid e db
  let pid := pd.1
  let db1 := pd.2
  let received := e.date.getD now
  if db1.messages.any (fun m => decide (m.user_id = user ∧ m.provider_msg_id = pid)) then
    (db1, { stats with duplicates := stats.duplicates + 1 })
  else
    let msg : Msg :=
      { id := db1.fresh, user_id := user, provider_msg_id := pid,
        from_addr := e.from_addr, subject := e.subject, received_at := received,
        card_hint := none, issuer_hint := none, raw_kept := retention }
    let db2 : Db := { db1 with fresh := db1.fresh + 1 }
    let stats1 := { stats with ingested_messages := stats.ingested_messages + 1 }
    match extractTransactionData plugins e received with
    | none =>
      ({ db2 with messages := db2.messages ++ [msg] },
       { stats1 with no_match := stats1.no_match + 1 })
    | some td =>
      let row : TxRow := { id := db2.fresh, user_id := user, message_id := msg.id, data := td }
      let msg' := { msg with card_hint := pyOrOpt td.card_last4 td.token_last4,
                             issuer_hint := td.issuer }
      ({ db2 with fresh := db2.fresh + 1, messages := db2.messages ++ [msg'],
                  transactions := db2.transactions ++ [row] },
       { stats1 with transactions_created := stats1.transactions_created + 1 })

/-- One uploaded file of `import_eml_files`, by the outcome of its read and
parse steps (importer.py lines 50-67): the byte-level reader and
`parse_eml` are external, so each item enters as its outcome. -/
inductive EmlItem where
  | readError (filename msg : String)
  | emptyFile (filename : String)
  | parseError (filename msg : String)
  | parsed (e : RawEmail)
/-- `True` exactly for the per-item failure outcomes. -/
def isEmlFailure : EmlItem → Bool
  | .parsed _ => false
  | _ => true

/-- The error string an item contributes (importer.py lines 56, 60, 66). -/
def emlItemError : EmlItem → Option String
  | .readError f m => some (f ++ ": read_error: " ++ m)
  | .emptyFile f => some (f ++ ": empty_file")
  | .parseError f m => some (f ++ ": parse_error: " ++ m)
  | .parsed _ => none

/-- One iteration of the loop of `import_eml_files` (importer.py lines
50-69): count the item, record a failure as an error string and continue,
or hand a parsed email to `_process_email`. -/
def importStep (plugins : List Plugin) (retention : Bool) (user : String) (now : ℚ)
    (acc : Db × ImportStats) (item : EmlItem) : Db × ImportStats :=
  let stats := { acc.2 with processed := acc.2.processed + 1 }
  match item with
  | .readError f m => (acc.1, { stats with errors := stats.errors ++ [f ++ ": read_error: " ++ m] })
  | .emptyFile f => (acc.1, { stats with errors := stats.errors ++ [f ++ ": empty_file"] })
  | .parseError f m => (acc.1, { stats with errors := stats.errors ++ [f ++ ": parse_error: " ++ m] })
  | .parsed e => processEmail plugins retention user now e acc.1 stats

/-- `import_eml_files` (importer.py lines 45-71). -/
def import_eml_files (plugins : List Plugin) (retention : Bool) (user : String) (now : ℚ)
    (items : List EmlItem) (db : Db) : Db × ImportStats :=
  items.foldl (importStep plugins retention user now) (db, {})

/-- One raw message of `ingest_raw_messages` (importer.py lines 81-88). -/
inductive RawItem where
  | parseError (msg : String)
  | parsed (e : RawEmail)

/-- `True` exactly for the failing raw items. -/
def isRawFailure : RawItem → Bool
  | .parsed _ => false
  | _ => true

/-- One iteration of the loop of `ingest_raw_messages` (importer.py lines
81-88). -/
def rawStep (plugins : List Plugin) (retention : Bool) (user : String) (now : ℚ)
    (acc : Db × ImportStats) (item : RawItem) : Db × ImportStats :=
  let stats := { acc.2 with processed := acc.2.processed + 1 }
  match item with
  | .parseError m => (acc.1, { stats with errors := stats.errors ++ ["parse_error: " ++ m] })
  | .parsed e => processEmail plugins retention user now e acc.1 stats

/-- `ingest_raw_messages` (importer.py lines 74-89). -/
def ingest_raw_messages (plugins : List Plugin) (retention : Bool) (user : String) (now : ℚ)
    (items : List RawItem) (db : Db) : Db × ImportStats :=
  items.foldl (rawStep plugins retention user now) (db, {})

/-- The persistence layer's authoritative unique constraint:
`UniqueConstraint("provider_msg_id")` on the messages table
(models/message.py line 14) — note it is *not* scoped by user. Inserting a
row whose provider id already exists raises an `IntegrityError`, modelled as
`Except.error`. -/
def insertMessageUnique (db : Db) (m : Msg) : Except String Db :=
  if db.messages.any (fun x => decide (x.provider_msg_id = m.provider_msg_id)) then
    Except.error "IntegrityError: UNIQUE constraint failed: messages.provider_msg_id"
  else Except.ok { db with messages := db.messages ++ [m] }

/-- `_process_email` with the uniqueness constraint made explicit:
`concurrent` holds rows committed by another writer between the duplicate
check (which reads `db`) and the INSERT (which sees them). The source has no
handler for an `IntegrityError` anywhere on this path (importer.py,
api/routes/imports.py, db/session.py re-raises after rollback), so a
violation propagates as `Except.error` instead of becoming a counted
duplicate. -/
def processEmailWithConstraint (plugins : List Plugin) (retention : Bool) (user : String)
    (now : ℚ) (e : RawEmail) (concurrent : List Msg) (db : Db) (stats : ImportStats) :
    Except String (Db × ImportStats) :=
  let pd := synthPid e db
  let pid := pd.1
  let db1 := pd.2
  let received := e.date.getD now
  if db1.messages.any (fun m => decide (m.user_id = user ∧ m.provider_msg_id = pid)) then
    Except.ok (db1, { stats with duplicates := stats.duplicates + 1 })
  else
    let msg : Msg :=
      { id := db1.fresh, user_id := user, provider_msg_id := pid,
        from_addr := e.from_addr, subject := e.subject, received_at := received,
        card_hint := none, issuer_hint := none, raw_kept := retention }
    let db2 : Db := { db1 with messages := db1.messages ++ concurrent, fresh := db1.fresh + 1 }
    let stats1 := { stats with ingested_messages := stats.ingested_messages + 1 }
    match insertMessageUnique db2 msg with
    | Except.error err => Except.error err
    | Except.ok db3 =>
      match extractTransactionData plugins e received with
      | none => Except.ok (db3, { stats1 with no_match := stats1.no_match + 1 })
      | some td =>
        let row : TxRow := { id := db3.fresh, user_id := user, message_id := msg.id, data := td }
        Except.ok
          ({ db3 with fresh := db3.fresh + 1,
                      messages := (db3.messages.dropLast) ++
                        [{ msg with card_hint := pyOrOpt td.card_last4 td.token_last4,
                                    issuer_hint := td.issuer }],
                      transactions := db3.transactions ++ [row] },
           { stats1 with transactions_created := stats1.transactions_created + 1 })

/-! ### Claim C9 — amount parsing -/

/-- C9 (amended): amount extraction parses the *first* currency-suffixed
numeral of the body, strips the thousands separators and scales by 100: any
body whose first regex match has the numeral group `1,234` yields
amount_cents 123400. -/
theorem amount_first_match_yields_123400 (body : String)
    (h : findAmountGroup body.data = some ('1' :: ',' :: '2' :: '3' :: '4' :: [])) :
    extract_amount_yen body = Except.ok (some 123400) := by
  unfold extract_amount_yen
  rw [h]
  rfl

/-- C9 witness: the body `"1,234円"` itself has first match group `1,234`
and yields 123400. -/
theorem amount_first_match_yields_123400_witness :
    extract_amount_yen "1,234円" = Except.ok (some 123400) :=
  amount_first_match_yields_123400 "1,234円" (by decide)

/-- C9 counterexample: mere containment of `"1,234円"` does not force
123400 — the leftmost match wins, so `"11,234円"` (which contains the
substring `"1,234円"`) parses to 1123400. -/
theorem amount_contains_not_sufficient :
    containsSub "1,234円".data "11,234円".data = true
    ∧ extract_amount_yen "11,234円" = Except.ok (some 1123400)
    ∧ decide ((some (1123400 : Int) : Option Int) = some 123400) = false :=
  ⟨by decide, rfl, by decide⟩

/-! ### Grouping lemmas and claim C3 -/

/-- Keys already accumulated survive the rest of the fold. -/
theorem groupKeys_fold_mono (ts : List Txn) (acc : List GroupKey) (k : GroupKey)
    (hk : k ∈ acc) :
    k ∈ ts.foldl (fun acc t => if keyOf t ∈ acc then acc else acc ++ [keyOf t]) acc := by
  induction ts generalizing acc with
  | nil => exact hk
  | cons t rest ih =>
    simp only [List.foldl_cons]
    apply ih
    by_cases h : keyOf t ∈ acc
    · rwa [if_pos h]
    · rw [if_neg h]; exact List.mem_append_left _ hk

/-- Every transaction's key appears among the group keys. -/
theorem keyOf_mem_groupKeys {ts : List Txn} {t : Txn} (ht : t ∈ ts) :
    keyOf t ∈ groupKeys ts := by
  unfold groupKeys
  suffices h : ∀ acc : List GroupKey,
      keyOf t ∈ ts.foldl (fun acc t => if keyOf t ∈ acc then acc else acc ++ [keyOf t]) acc by
    exact h []
  intro acc
  induction ts generalizing acc with
  | nil => cases ht
  | cons a rest ih =>
    rcases List.mem_cons.1 ht with h | h
    · subst h
      simp only [List.foldl_cons]
      apply groupKeys_fold_mono
      by_cases hmem : keyOf t ∈ acc
      · rwa [if_pos hmem]
      · rw [if_neg hmem]; exact List.mem_append_right _ (List.mem_singleton_self _)
    · exact ih h _

/-- Membership in a group is membership in the input with the right key. -/
theorem mem_groupOf {ts : List Txn} {k : GroupKey} {t : Txn} :
    t ∈ groupOf ts k ↔ t ∈ ts ∧ keyOf t = k := by
  simp [groupOf]

/-- C3 (amended): grouping uses the full three-component key
`(merchant_norm or merchant_raw, card_last4 or token_last4,
wallet_type or product_hint)`: two transactions of the input share a group
exactly when all three components agree — the wallet/product hint is always
part of the key, not only when the suffix is missing. -/
theorem grouping_key_three_components (ts : List Txn) (t1 t2 : Txn)
    (h1 : t1 ∈ ts) (h2 : t2 ∈ ts) :
    (∃ k ∈ groupKeys ts, t1 ∈ groupOf ts k ∧ t2 ∈ groupOf ts k) ↔
      (pyOrStr t1.merchant_norm t1.merchant_raw = pyOrStr t2.merchant_norm t2.merchant_raw
       ∧ pyOrOpt t1.card_last4 t1.token_last4 = pyOrOpt t2.card_last4 t2.token_last4
       ∧ pyOrOpt t1.wallet_type t1.product_hint = pyOrOpt t2.wallet_type t2.product_hint) := by
  constructor
  · rintro ⟨k, -, hk1, hk2⟩
    have e1 : keyOf t1 = k := (mem_groupOf.1 hk1).2
    have e2 : keyOf t2 = k := (mem_groupOf.1 hk2).2
    have e := e1.trans e2.symm
    simpa [keyOf, Prod.ext_iff] using e
  · rintro ⟨hm, hc, hw⟩
    have hkey : keyOf t1 = keyOf t2 := by
      simp [keyOf, Prod.ext_iff, hm, hc, hw]
    exact ⟨keyOf t1, keyOf_mem_groupKeys h1, mem_groupOf.2 ⟨h1, rfl⟩,
      mem_groupOf.2 ⟨h2, hkey.symm⟩⟩

/-- A transaction used by the C3 witness: same merchant and suffix as
`txSameB`, same wallet hint. -/
def txSameA : Txn :=
  { merchant_norm := some "netflix", merchant_raw := "Netflix", amount_cents := 990,
    purchased_at := 0, card_last4 := some "1234", token_last4 := none,
    wallet_type := some "apple_pay", product_hint := none }

/-- Companion of `txSameA` in the same group. -/
def txSameB : Txn :=
  { merchant_norm := some "netflix", merchant_raw := "Netflix", amount_cents := 990,
    purchased_at := 31, card_last4 := some "1234", token_last4 := none,
    wallet_type := some "apple_pay", product_hint := none }

/-- C3 witness: two transactions agreeing on all three key components do
share a group. -/
theorem grouping_key_three_components_witness :
    ∃ k ∈ groupKeys [txSameA, txSameB],
      txSameA ∈ groupOf [txSameA, txSameB] k ∧ txSameB ∈ groupOf [txSameA, txSameB] k :=
  (grouping_key_three_components [txSameA, txSameB] txSameA txSameB
    (by simp) (by simp)).mpr ⟨rfl, rfl, rfl⟩

/-- A transaction differing from `txSameA` only in the wallet hint. -/
def txOtherWallet : Txn :=
  { merchant_norm := some "netflix", merchant_raw := "Netflix", amount_cents := 990,
    purchased_at := 31, card_last4 := some "1234", token_last4 := none,
    wallet_type := some "google_pay", product_hint := none }

/-- C3 counterexample: same merchant and same card suffix do **not** imply
the same group — a differing wallet hint separates the keys, and the two
transactions land in different groups. -/
theorem grouping_same_suffix_separated :
    txSameA.merchant_norm = txOtherWallet.merchant_norm
    ∧ txSameA.card_last4 = txOtherWallet.card_last4
    ∧ decide (keyOf txSameA = keyOf txOtherWallet) = false
    ∧ groupOf [txSameA, txOtherWallet] (keyOf txSameA) = [txSameA] := by
  refine ⟨rfl, rfl, by decide, by decide⟩

/-! ### Claim C10 — normalizer idempotence -/

/-- `Char.ofNat` on a valid code point round-trips through `toNat`. -/
theorem toNat_ofNat_valid (n : ℕ) (h : n.isValidChar) : (Char.ofNat n).toNat = n := by
  simp [Char.ofNat, h, Char.ofNatAux, Char.toNat, UInt32.toNat, BitVec.toNat_ofNatLt]

/-- Lowercasing never produces an ASCII uppercase letter. -/
theorem lowerC_not_upper (c : Char) : ¬(65 ≤ (lowerC c).toNat ∧ (lowerC c).toNat ≤ 90) := by
  unfold lowerC
  by_cases h : 65 ≤ c.toNat ∧ c.toNat ≤ 90
  · rw [if_pos h]
    have hv : (c.toNat + 32).isValidChar := Or.inl (by omega)
    rw [toNat_ofNat_valid _ hv]
    omega
  · rwa [if_neg h]

/-- `lowerC` is idempotent. -/
theorem lowerC_idem (c : Char) : lowerC (lowerC c) = lowerC c := by
  conv_lhs => rw [lowerC]
  rw [if_neg (lowerC_not_upper c)]

/-- `lowerC` fixes characters that are not uppercase ASCII letters. -/
theorem lowerC_of_not_upper {c : Char} (h : ¬(65 ≤ c.toNat ∧ c.toNat ≤ 90)) :
    lowerC c = c := if_neg h

/-- The space produced by the substitutions is `lowerC`-fixed. -/
theorem lowerC_space : lowerC ' ' = ' ' := by decide

/-- The head of `dropWhile p` falsifies `p`. -/
theorem head?_dropWhile_false {p : Char → Bool} {l : List Char} {c : Char}
    (h : (l.dropWhile p).head? = some c) : p c = false := by
  induction l with
  | nil => simp at h
  | cons a t ih =>
    rw [List.dropWhile_cons] at h
    by_cases hp : p a = true
    · exact ih (by rwa [if_pos hp] at h)
    · rw [if_neg hp, List.head?_cons, Option.some.injEq] at h
      rw [← h]
      exact Bool.eq_false_iff.2 hp

/-- Dropping trailing whitespace yields a prefix. -/
theorem dropTrailWs_isPrefix (l : List Char) : dropTrailWs l <+: l := by
  unfold dropTrailWs
  have h := List.reverse_prefix.2 (List.dropWhile_suffix (l := l.reverse) isWsC)
  rwa [List.reverse_reverse] at h

/-- `stripWs` yields an infix of its argument. -/
theorem stripWs_isInfix (l : List Char) : stripWs l <:+: l := by
  unfold stripWs
  exact (dropTrailWs_isPrefix _).isInfix.trans (List.dropWhile_suffix isWsC).isInfix

/-- After `stripWs` the first character is not whitespace. -/
theorem stripWs_noLead {l : List Char} {c : Char} (h : (stripWs l).head? = some c) :
    isWsC c = false := by
  unfold stripWs at h
  obtain ⟨t, ht⟩ := dropTrailWs_isPrefix (l.dropWhile isWsC)
  have hh : (l.dropWhile isWsC).head? = some c := by
    rw [← ht]
    rcases hd : dropTrailWs (l.dropWhile isWsC) with _ | ⟨a, r⟩
    · rw [hd] at h; simp at h
    · rw [hd] at h
      rw [List.head?_cons, Option.some.injEq] at h
      subst h
      simp
  exact head?_dropWhile_false hh

/-- After `stripWs` the last character is not whitespace. -/
theorem stripWs_noTrail {l : List Char} {c : Char} (h : (stripWs l).getLast? = some c) :
    isWsC c = false := by
  unfold stripWs dropTrailWs at h
  rw [List.getLast?_reverse] at h
  exact head?_dropWhile_false h

/-- `dropWhile` is the identity when the head does not satisfy `p`. -/
theorem dropWhile_eq_self_of_head {p : Char → Bool} {l : List Char}
    (h : ∀ c, l.head? = some c → p c = false) : l.dropWhile p = l := by
  cases l with
  | nil => rfl
  | cons a t =>
    rw [List.dropWhile_cons, if_neg]
    rw [h a rfl]
    simp

/-- `stripWs` is the identity on lists with no leading or trailing
whitespace. -/
theorem stripWs_eq_self {l : List Char}
    (h1 : ∀ c, l.head? = some c → isWsC c = false)
    (h2 : ∀ c, l.getLast? = some c → isWsC c = false) : stripWs l = l := by
  unfold stripWs dropTrailWs
  rw [dropWhile_eq_self_of_head h1]
  rw [dropWhile_eq_self_of_head (by simpa [List.head?_reverse] using h2)]
  exact List.reverse_reverse l

/-- Every whitespace character in the output of `collapseWs` is a plain
space. -/
theorem collapseWs_allWsSpace (l : List Char) :
    ∀ c ∈ collapseWs l, isWsC c = true → c = ' ' := by
  induction l using collapseWs.induct with
  | case1 => simp [collapseWs]
  | case2 c rest hws ih =>
    rw [collapseWs, if_pos hws]
    intro x hx hxws
    rcases List.mem_cons.1 hx with h | h
    · exact h
    · exact ih x h hxws
  | case3 c rest hws ih =>
    rw [collapseWs, if_neg hws]
    intro x hx hxws
    rcases List.mem_cons.1 hx with h | h
    · subst h; exact absurd hxws (by simp [hws])
    · exact ih x h hxws

/-- Every member of `collapseWs l` is a space or a member of `l`. -/
theorem mem_collapseWs {l : List Char} {c : Char} (h : c ∈ collapseWs l) :
    c = ' ' ∨ c ∈ l := by
  induction l using collapseWs.induct with
  | case1 => simp [collapseWs] at h
  | case2 a rest hws ih =>
    rw [collapseWs, if_pos hws] at h
    rcases List.mem_cons.1 h with h' | h'
    · exact Or.inl h'
    · rcases ih h' with h'' | h''
      · exact Or.inl h''
      · exact Or.inr (List.mem_cons_of_mem _ ((List.dropWhile_suffix isWsC).sublist.mem h''))
  | case3 a rest hws ih =>
    rw [collapseWs, if_neg hws] at h
    rcases List.mem_cons.1 h with h' | h'
    · exact Or.inr (h' ▸ List.mem_cons_self _ _)
    · rcases ih h' with h'' | h''
      · exact Or.inl h''
      · exact Or.inr (List.mem_cons_of_mem _ h'')

/-- If the head of `collapseWs l` exists and `l`'s head is not whitespace,
they agree. -/
theorem collapseWs_cons_not_ws {c : Char} {rest : List Char} (h : ¬ isWsC c = true) :
    collapseWs (c :: rest) = c :: collapseWs rest := by
  rw [collapseWs, if_neg h]

/-- No two adjacent characters of `collapseWs l` are both whitespace. -/
theorem collapseWs_chain (l : List Char) :
    (collapseWs l).Chain' (fun a b => ¬(isWsC a = true ∧ isWsC b = true)) := by
  induction l using collapseWs.induct with
  | case1 => simp [collapseWs]
  | case2 c rest hws ih =>
    rw [collapseWs, if_pos hws]
    rw [List.chain'_cons']
    refine ⟨?_, ih⟩
    intro y hy
    rcases hd : List.dropWhile isWsC rest with _ | ⟨a, r⟩
    · rw [hd, collapseWs] at hy; simp at hy
    · have ha : isWsC a = false := head?_dropWhile_false (l := rest) (by rw [hd]; rfl)
      rw [hd, collapseWs_cons_not_ws (by simp [ha])] at hy
      rw [List.head?_cons, Option.mem_def, Option.some.injEq] at hy
      subst hy
      simp [ha]
  | case3 c rest hws ih =>
    rw [collapseWs, if_neg hws]
    rw [List.chain'_cons']
    exact ⟨fun y _ hcontra => hws hcontra.1, ih⟩

/-- `collapseWs` is the identity on lists whose whitespace is already
single spaces with no two adjacent. -/
theorem collapseWs_eq_self (l : List Char) :
    (∀ c ∈ l, isWsC c = true → c = ' ') →
    l.Chain' (fun a b => ¬(isWsC a = true ∧ isWsC b = true)) →
    collapseWs l = l := by
  induction l using collapseWs.induct with
  | case1 => intro _ _; rw [collapseWs]
  | case2 c rest hws ih =>
    intro hs hc
    have hdw : rest.dropWhile isWsC = rest := by
      apply dropWhile_eq_self_of_head
      intro d hd
      cases rest with
      | nil => simp at hd
      | cons b t =>
        rw [List.head?_cons, Option.some.injEq] at hd
        subst hd
        have hnb := (List.chain'_cons'.1 hc).1 b (by simp)
        by_contra hdws
        exact hnb ⟨hws, by simpa using hdws⟩
    rw [collapseWs, if_pos hws, hdw]
    rw [hdw] at ih
    rw [ih (fun x hx hxw => hs x (List.mem_cons_of_mem _ hx) hxw) (List.chain'_cons'.1 hc).2]
    rw [hs c (List.mem_cons_self _ _) hws]
  | case3 c rest hws ih =>
    intro hs hc
    rw [collapseWs, if_neg hws]
    rw [ih (fun x hx hxw => hs x (List.mem_cons_of_mem _ hx) hxw) (List.chain'_cons'.1 hc).2]

/-- Mapping a function that fixes every member is the identity. -/
theorem map_fix {f : Char → Char} {l : List Char} (h : ∀ c ∈ l, f c = c) :
    l.map f = l := by
  rw [List.map_congr_left (g := id) h, List.map_id]

/-- The punctuation substitution never outputs punctuation. -/
theorem substPunct_not_punct (c : Char) : isPunctC (substPunct c) = false := by
  unfold substPunct
  by_cases h : isPunctC c = true
  · rw [if_pos h]; decide
  · rw [if_neg h]; simpa using h

/-- Output characters of the lower-then-substitute stage are `lowerC`-fixed. -/
theorem lowerC_substPunct_lowerC (x : Char) :
    lowerC (substPunct (lowerC x)) = substPunct (lowerC x) := by
  unfold substPunct
  by_cases h : isPunctC (lowerC x) = true
  · rw [if_pos h]; exact lowerC_space
  · rw [if_neg h]; exact lowerC_idem x

/-- A list that is already in the normal form produced by `normalize_name`
is fixed by another normalization pass. -/
theorem normalized_fixed (l : List Char)
    (hlow : ∀ c ∈ l, lowerC c = c)
    (hpun : ∀ c ∈ l, isPunctC c = false)
    (hsp : ∀ c ∈ l, isWsC c = true → c = ' ')
    (hch : l.Chain' (fun a b => ¬(isWsC a = true ∧ isWsC b = true)))
    (hlead : ∀ c, l.head? = some c → isWsC c = false)
    (htrail : ∀ c, l.getLast? = some c → isWsC c = false) :
    stripWs (collapseWs (((stripWs l).map lowerC).map substPunct)) = l := by
  rw [stripWs_eq_self hlead htrail, map_fix hlow,
    map_fix (fun c hc => by unfold substPunct; rw [hpun c hc]; simp),
    collapseWs_eq_self l hsp hch, stripWs_eq_self hlead htrail]

/-- C10: `normalize_name` is idempotent, and its output never carries
leading or trailing whitespace. -/
theorem normalize_name_idempotent_trimmed (s : String) :
    normalize_name (normalize_name s) = normalize_name s
    ∧ (∀ c, (normalize_name s).data.head? = some c → isWsC c = false)
    ∧ (∀ c, (normalize_name s).data.getLast? = some c → isWsC c = false) := by
  have hout : (normalize_name s).data
      = stripWs (collapseWs (((stripWs s.data).map lowerC).map substPunct)) := rfl
  refine ⟨?_, fun c h => stripWs_noLead (by rw [← hout]; exact h),
    fun c h => stripWs_noTrail (by rw [← hout]; exact h)⟩
  have hmem : ∀ c ∈ (normalize_name s).data,
      c = ' ' ∨ c ∈ ((stripWs s.data).map lowerC).map substPunct := by
    intro c hc
    rw [hout] at hc
    exact mem_collapseWs ((stripWs_isInfix _).sublist.mem hc)
  have hlow : ∀ c ∈ (normalize_name s).data, lowerC c = c := by
    intro c hc
    rcases hmem c hc with h | h
    · rw [h]; exact lowerC_space
    · obtain ⟨y, hy, rfl⟩ := List.mem_map.1 h
      obtain ⟨x, hx, rfl⟩ := List.mem_map.1 hy
      exact lowerC_substPunct_lowerC x
  have hpun : ∀ c ∈ (normalize_name s).data, isPunctC c = false := by
    intro c hc
    rcases hmem c hc with h | h
    · rw [h]; decide
    · obtain ⟨y, hy, rfl⟩ := List.mem_map.1 h
      exact substPunct_not_punct y
  have hsp : ∀ c ∈ (normalize_name s).data, isWsC c = true → c = ' ' := by
    intro c hc
    rw [hout] at hc
    exact collapseWs_allWsSpace _ c ((stripWs_isInfix _).sublist.mem hc)
  have hch : (normalize_name s).data.Chain'
      (fun a b => ¬(isWsC a = true ∧ isWsC b = true)) := by
    rw [hout]
    exact List.Chain'.infix (collapseWs_chain _) (stripWs_isInfix _)
  have hlead : ∀ c, (normalize_name s).data.head? = some c → isWsC c = false :=
    fun c h => stripWs_noLead (by rw [← hout]; exact h)
  have htrail : ∀ c, (normalize_name s).data.getLast? = some c → isWsC c = false :=
    fun c h => stripWs_noTrail (by rw [← hout]; exact h)
  have hdata : (normalize_name (normalize_name s)).data = (normalize_name s).data := by
    rw [show (normalize_name (normalize_name s)).data
        = stripWs (collapseWs (((stripWs (normalize_name s).data).map lowerC).map substPunct))
      from rfl]
    exact normalized_fixed _ hlow hpun hsp hch hlead htrail
  exact congrArg String.mk hdata

/-- C10 witness: a concrete input with uppercase letters, punctuation and
edge whitespace. -/
theorem normalize_name_idempotent_trimmed_witness :
    normalize_name (normalize_name "  A**B  ") = normalize_name "  A**B  "
    ∧ isWsC 'a' = false :=
  ⟨(normalize_name_idempotent_trimmed "  A**B  ").1,
   (normalize_name_idempotent_trimmed "  A**B  ").2.1 'a' (by
     simp [normalize_name, stripWs, dropTrailWs, collapseWs, isWsC, lowerC,
       substPunct, isPunctC, List.dropWhile])⟩

/-! ### Claim C1 — coordinator dispatch -/

/-- Characterization of the `_pick_extractor` loop: the running maximum
never decreases, it bounds every successful score, and the selected plugin
(if it changed) is the earliest plugin attaining the final maximum. -/
theorem pickBest_spec (e : RawEmail) (l : List Plugin) (b0 : ℚ) (p0 : Option Plugin) :
    b0 ≤ (pickBest e l b0 p0).1
    ∧ (∀ p ∈ l, ∀ sc, p.score e = some sc → sc ≤ (pickBest e l b0 p0).1)
    ∧ (((pickBest e l b0 p0).1 = b0 ∧ (pickBest e l b0 p0).2 = p0)
       ∨ ∃ q pre post, (pickBest e l b0 p0).2 = some q ∧ l = pre ++ q :: post
          ∧ q.score e = some (pickBest e l b0 p0).1
          ∧ b0 < (pickBest e l b0 p0).1
          ∧ ∀ r ∈ pre, ∀ sr, r.score e = some sr → sr < (pickBest e l b0 p0).1) := by
  induction l generalizing b0 p0 with
  | nil => exact ⟨le_refl _, by simp, Or.inl ⟨rfl, rfl⟩⟩
  | cons p rest ih =>
    rcases hsc : p.score e with _ | sc
    · -- score raised: the plugin is skipped
      have heq : pickBest e (p :: rest) b0 p0 = pickBest e rest b0 p0 := by
        rw [pickBest, hsc]
      obtain ⟨h1, h2, h3⟩ := ih b0 p0
      rw [heq]
      refine ⟨h1, ?_, ?_⟩
      · intro q hq sq hsq
        rcases List.mem_cons.1 hq with h | h
        · subst h; rw [hsc] at hsq; cases hsq
        · exact h2 q h sq hsq
      · rcases h3 with h | ⟨q, pre, post, hq1, hq2, hq3, hq4, hq5⟩
        · exact Or.inl h
        · exact Or.inr ⟨q, p :: pre, post, hq1, by simp [hq2], hq3, hq4, by
            intro r hr sr hsr
            rcases List.mem_cons.1 hr with h | h
            · subst h; rw [hsc] at hsr; cases hsr
            · exact hq5 r h sr hsr⟩
    · by_cases hlt : b0 < sc
      · have heq : pickBest e (p :: rest) b0 p0 = pickBest e rest sc (some p) := by
          rw [pickBest, hsc]
          dsimp only
          rw [if_pos hlt]
        obtain ⟨h1, h2, h3⟩ := ih sc (some p)
        rw [heq]
        refine ⟨le_of_lt (lt_of_lt_of_le hlt h1), ?_, ?_⟩
        · intro q hq sq hsq
          rcases List.mem_cons.1 hq with h | h
          · subst h; rw [hsc] at hsq
            cases hsq
            exact h1
          · exact h2 q h sq hsq
        · rcases h3 with ⟨he1, he2⟩ | ⟨q, pre, post, hq1, hq2, hq3, hq4, hq5⟩
          · exact Or.inr ⟨p, [], rest, he2, rfl, by rw [he1]; exact hsc,
              by rw [he1]; exact hlt, by simp⟩
          · refine Or.inr ⟨q, p :: pre, post, hq1, by simp [hq2], hq3,
              lt_trans hlt hq4, ?_⟩
            intro r hr sr hsr
            rcases List.mem_cons.1 hr with h | h
            · subst h; rw [hsc] at hsr
              cases hsr
              exact hq4
            · exact hq5 r h sr hsr
      · have heq : pickBest e (p :: rest) b0 p0 = pickBest e rest b0 p0 := by
          rw [pickBest, hsc]
          dsimp only
          rw [if_neg hlt]
        obtain ⟨h1, h2, h3⟩ := ih b0 p0
        rw [heq]
        refine ⟨h1, ?_, ?_⟩
        · intro q hq sq hsq
          rcases List.mem_cons.1 hq with h | h
          · subst h; rw [hsc] at hsq
            cases hsq
            exact le_trans (not_lt.1 hlt) h1
          · exact h2 q h sq hsq
        · rcases h3 with h | ⟨q, pre, post, hq1, hq2, hq3, hq4, hq5⟩
          · exact Or.inl h
          · refine Or.inr ⟨q, p :: pre, post, hq1, by simp [hq2], hq3, hq4, ?_⟩
            intro r hr sr hsr
            rcases List.mem_cons.1 hr with h | h
            · subst h; rw [hsc] at hsr
              cases hsr
              exact lt_of_le_of_lt (not_lt.1 hlt) hq4
            · exact hq5 r h sr hsr

/-- C1: the coordinator evaluates every registered plugin's score and
selects the maximum; a maximum below 0.3 is a no-match; `extract` runs only
on the selected plugin and a null extract is a no-match with no fallback;
ties resolve to the earlier-registered plugin (every earlier plugin scores
strictly below the winner's score). -/
theorem coordinator_max_no_fallback (plugins : List Plugin) (e : RawEmail) (ra : ℚ) :
    ((∀ p ∈ plugins, ∀ sc, p.score e = some sc → sc < MIN_SCORE) →
      extractTransactionData plugins e ra = none)
    ∧ (∀ p, pickExtractor plugins e = some p →
        ∃ sc, p.score e = some sc ∧ MIN_SCORE ≤ sc
          ∧ (∀ q ∈ plugins, ∀ sq, q.score e = some sq → sq ≤ sc)
          ∧ ∃ pre post, plugins = pre ++ p :: post
              ∧ ∀ q ∈ pre, ∀ sq, q.score e = some sq → sq < sc)
    ∧ (∀ p, pickExtractor plugins e = some p → p.extract e = none →
        extractTransactionData plugins e ra = none)
    ∧ (∀ p payload, pickExtractor plugins e = some p → p.extract e = some payload →
        extractTransactionData plugins e ra = some (buildTxData payload ra)) := by
  obtain ⟨h1, h2, h3⟩ := pickBest_spec e plugins 0 none
  refine ⟨?_, ?_, ?_, ?_⟩
  · intro hall
    have hlt : (pickBest e plugins 0 none).1 < MIN_SCORE := by
      rcases h3 with ⟨hb, -⟩ | ⟨q, pre, post, -, hsplit, hq3, -, -⟩
      · rw [hb]; norm_num [MIN_SCORE]
      · exact hall q (by rw [hsplit]; exact List.mem_append_right _ (List.mem_cons_self _ _))
          _ hq3
    have hpick : pickExtractor plugins e = none := by
      unfold pickExtractor
      rw [if_pos hlt]
    unfold extractTransactionData
    rw [hpick]
  · intro p hp
    unfold pickExtractor at hp
    by_cases hlt : (pickBest e plugins 0 none).1 < MIN_SCORE
    · rw [if_pos hlt] at hp; cases hp
    · rw [if_neg hlt] at hp
      rcases h3 with ⟨-, hb2⟩ | ⟨q, pre, post, hq1, hq2, hq3, -, hq5⟩
      · rw [hb2] at hp; cases hp
      · rw [hq1, Option.some.injEq] at hp
        subst hp
        exact ⟨(pickBest e plugins 0 none).1, hq3, not_lt.1 hlt, h2, pre, post, hq2, hq5⟩
  · intro p hp hx
    unfold extractTransactionData
    rw [hp]
    dsimp only
    rw [hx]
  · intro p payload hp hx
    unfold extractTransactionData
    rw [hp]
    dsimp only
    rw [hx]

/-- The email used by the C1 witness. -/
def eWitness : RawEmail :=
  { message_id := some "w", from_addr := "a@b", subject := "s", date := none, body := "" }

/-- Witness plugin scoring 0.9 whose extract returns null. -/
def pluginA : Plugin :=
  { score := fun _ => some (9 / 10), extract := fun _ => none }

/-- Witness plugin scoring 0.4 whose extract would succeed. -/
def pluginB : Plugin :=
  { score := fun _ => some (4 / 10), extract := fun _ => some {} }

/-- Witness plugin scoring 0.1, below the dispatch threshold. -/
def pluginLow : Plugin :=
  { score := fun _ => some (1 / 10), extract := fun _ => some {} }

/-- C1 witness: a lone 0.1 scorer is a no-match; with plugin A at 0.9 and
plugin B at 0.4, A is selected as the strict maximum and its null extract
makes the overall result no-match (B is never consulted); a lone 0.4 scorer
is selected and its payload is extracted. -/
theorem coordinator_max_no_fallback_witness :
    extractTransactionData [pluginLow] eWitness 0 = none
    ∧ pickExtractor [pluginA, pluginB] eWitness = some pluginA
    ∧ extractTransactionData [pluginA, pluginB] eWitness 0 = none
    ∧ (∃ sc, pluginA.score eWitness = some sc ∧ MIN_SCORE ≤ sc
        ∧ (∀ q ∈ [pluginA, pluginB], ∀ sq, q.score eWitness = some sq → sq ≤ sc)
        ∧ ∃ pre post, [pluginA, pluginB] = pre ++ pluginA :: post
            ∧ ∀ q ∈ pre, ∀ sq, q.score eWitness = some sq → sq < sc)
    ∧ extractTransactionData [pluginB] eWitness 0 = some (buildTxData {} 0) := by
  have hpickAB : pickExtractor [pluginA, pluginB] eWitness = some pluginA := by
    norm_num [pickExtractor, pickBest, pluginA, pluginB, MIN_SCORE]
  have hpickB : pickExtractor [pluginB] eWitness = some pluginB := by
    norm_num [pickExtractor, pickBest, pluginB, MIN_SCORE]
  refine ⟨?_, hpickAB,
    (coordinator_max_no_fallback [pluginA, pluginB] eWitness 0).2.2.1 pluginA hpickAB rfl,
    (coordinator_max_no_fallback [pluginA, pluginB] eWitness 0).2.1 pluginA hpickAB,
    (coordinator_max_no_fallback [pluginB] eWitness 0).2.2.2 pluginB {} hpickB rfl⟩
  apply (coordinator_max_no_fallback [pluginLow] eWitness 0).1
  intro p hp sc hsc
  simp only [List.mem_singleton] at hp
  subst hp
  simp only [pluginLow] at hsc
  rw [Option.some.injEq] at hsc
  subst hsc
  norm_num [MIN_SCORE]

/-! ### Detector lemmas (claims C2, C4, C5) -/

/-- Every retained amount is strictly positive (the detector filters
`amount_cents > 0` before computing statistics). -/
theorem amountsOf_pos (g : List Txn) : ∀ a ∈ amountsOf g, 0 < a := by
  intro a ha
  obtain ⟨t, ht, rfl⟩ := List.mem_map.1 ha
  have := List.mem_filter.1 ht
  exact of_decide_eq_true this.2

/-- Number of consecutive gaps. -/
theorem gapsOf_length (l : List Int) : (gapsOf l).length = l.length - 1 := by
  induction l with
  | nil => rfl
  | cons a t ih =>
    cases t with
    | nil => rfl
    | cons b r =>
      rw [show gapsOf (a :: b :: r) = (b - a) :: gapsOf (b :: r) from rfl]
      simp only [List.length_cons, ih]
      omega

/-- At least three positive transactions leave at least two gaps. -/
theorem deltasOf_ne_nil {g : List Txn} (h3 : 3 ≤ (sortedPositives g).length) :
    deltasOf g ≠ [] := by
  have hlen : (deltasOf g).length = (sortedPositives g).length - 1 := by
    unfold deltasOf datesOf
    rw [gapsOf_length, List.length_map]
  intro hcon
  rw [hcon] at hlen
  simp at hlen
  omega

/-- The amounts list has the same length as the positive-transaction list. -/
theorem amountsOf_length (g : List Txn) :
    (amountsOf g).length = (sortedPositives g).length := List.length_map _ _

/-- The median of a nonempty list of positive integers is positive. -/
theorem medianQ_pos {l : List Int} (hne : l ≠ []) (hpos : ∀ a ∈ l, 0 < a) :
    0 < medianQ l := by
  unfold medianQ
  have hlen : (List.insertionSort (fun a b : Int => a ≤ b) l).length = l.length :=
    List.length_insertionSort _ _
  have hn : 0 < l.length := List.length_pos.2 hne
  have hget : ∀ i, i < l.length →
      0 < (List.insertionSort (fun a b : Int => a ≤ b) l).getD i 0 := by
    intro i hi
    have hi' : i < (List.insertionSort (fun a b : Int => a ≤ b) l).length := by
      rw [hlen]; exact hi
    rw [List.getD_eq_getElem?_getD, List.getElem?_eq_getElem hi', Option.getD_some]
    exact hpos _ ((List.mem_insertionSort _).1 (List.getElem_mem hi'))
  by_cases hpar : (List.insertionSort (fun a b : Int => a ≤ b) l).length % 2 = 1
  · rw [if_pos hpar]
    have hI := hget ((List.insertionSort (fun a b : Int => a ≤ b) l).length / 2)
      (by rw [hlen]; omega)
    exact_mod_cast hI
  · rw [if_neg hpar]
    have h2 : 2 ≤ l.length := by
      rw [hlen] at hpar
      omega
    have ha := hget ((List.insertionSort (fun a b : Int => a ≤ b) l).length / 2 - 1)
      (by rw [hlen]; omega)
    have hb := hget ((List.insertionSort (fun a b : Int => a ≤ b) l).length / 2)
      (by rw [hlen]; omega)
    have ha' : (0 : ℚ) <
        ((List.insertionSort (fun a b : Int => a ≤ b) l).getD
          ((List.insertionSort (fun a b : Int => a ≤ b) l).length / 2 - 1) 0 : Int) := by
      exact_mod_cast ha
    have hb' : (0 : ℚ) <
        ((List.insertionSort (fun a b : Int => a ≤ b) l).getD
          ((List.insertionSort (fun a b : Int => a ≤ b) l).length / 2) 0 : Int) := by
      exact_mod_cast hb
    linarith

/-- A left fold by `max` is at least its initial value. -/
theorem le_foldl_max (t : List ℚ) (a : ℚ) : a ≤ t.foldl max a := by
  induction t generalizing a with
  | nil => exact le_refl a
  | cons x r ih => exact le_trans (le_max_left a x) (ih (max a x))

/-- Python `max` of a list of nonnegative rationals is nonnegative. -/
theorem pyMaxQ_nonneg {l : List ℚ} (h : ∀ x ∈ l, 0 ≤ x) : 0 ≤ pyMaxQ l := by
  cases l with
  | nil => exact le_refl 0
  | cons x r => exact le_trans (h x (List.mem_cons_self _ _)) (le_foldl_max r x)

/-- The vocabulary signal is nonnegative whenever the similarity function
is. -/
theorem vocabSignal_nonneg {pfr : String → String → ℚ}
    (hpfr : ∀ a b, 0 ≤ pfr a b) (merchant : String) :
    0 ≤ vocabSignal pfr merchant := by
  unfold vocabSignal
  by_cases h : subscriptionKeywords.any
      (fun kw => containsSub kw.data (lowerStr merchant).data) = true
  · rw [if_pos h]; norm_num
  · rw [if_neg h]
    have := pyMaxQ_nonneg (l := subscriptionKeywords.map
      (fun kw => pfr (lowerStr merchant) kw)) (by
        intro x hx
        obtain ⟨kw, -, rfl⟩ := List.mem_map.1 hx
        exact hpfr _ _)
    positivity

/-- Round-half-even is at least the floor. -/
theorem roundHalfEven_ge_floor (q : ℚ) : ⌊q⌋ ≤ roundHalfEven q := by
  unfold roundHalfEven
  split_ifs <;> omega

/-- A lower integer bound on `100·q` survives `round(·, 2)`. -/
theorem roundTo2_ge {q : ℚ} {z : ℤ} (h : (z : ℚ) ≤ 100 * q) :
    (z : ℚ) / 100 ≤ roundTo2 q := by
  unfold roundTo2
  have h1 : z ≤ ⌊100 * q⌋ := Int.le_floor.2 h
  have h2 : z ≤ roundHalfEven (100 * q) := le_trans h1 (roundHalfEven_ge_floor _)
  have h3 : (z : ℚ) ≤ (roundHalfEven (100 * q) : ℚ) := by exact_mod_cast h2
  linarith

/-- A window count never exceeds the number of gaps. -/
theorem countInWindow_le (deltas : List Int) (lo hi : Int) :
    countInWindow deltas lo hi ≤ deltas.length := List.length_filter_le _ _

/-- When every gap lies in the window, the window count is the gap count. -/
theorem countInWindow_full {deltas : List Int} {lo hi : Int}
    (h : ∀ d ∈ deltas, lo ≤ d ∧ d ≤ hi) :
    countInWindow deltas lo hi = deltas.length := by
  unfold countInWindow
  rw [List.filter_eq_self.2 (fun d hd => decide_eq_true (h d hd))]

/-- If some window holds every gap, the periodicity score is exactly 1. -/
theorem periodicityScore_eq_one {deltas : List Int} (hne : deltas ≠ [])
    (h : countInWindow deltas 6 8 = deltas.length
      ∨ countInWindow deltas 27 33 = deltas.length
      ∨ countInWindow deltas 358 372 = deltas.length) :
    periodicityScore deltas = 1 := by
  unfold periodicityScore
  rw [if_neg (by simpa using hne)]
  dsimp only
  have hn : 0 < deltas.length := List.length_pos.2 hne
  have hbest : max (countInWindow deltas 6 8)
      (max (countInWindow deltas 27 33) (countInWindow deltas 358 372))
      = deltas.length := by
    apply le_antisymm
    · exact max_le (countInWindow_le _ _ _)
        (max_le (countInWindow_le _ _ _) (countInWindow_le _ _ _))
    · rcases h with h | h | h
      · exact h ▸ le_max_left _ _
      · exact le_trans (h ▸ le_max_left _ _) (le_max_right _ _)
      · exact le_trans (h ▸ le_max_right _ _) (le_max_right _ _)
  rw [hbest, Nat.max_eq_right hn]
  rw [div_self (by exact_mod_cast Nat.pos_iff_ne_zero.1 hn)]
  exact min_self 1

/-- If every amount is within 10% of the (nonzero) median, the stability
score is exactly 1. -/
theorem stabilityScore_eq_one {amounts : List Int} (hne : amounts ≠ [])
    (hmed : medianQ amounts ≠ 0)
    (hall : ∀ a ∈ amounts, |(a : ℚ) - medianQ amounts| / medianQ amounts ≤ 1 / 10) :
    stabilityScore amounts = 1 := by
  unfold stabilityScore
  rw [if_neg (by simpa using hne), if_neg hmed]
  rw [List.filter_eq_self.2 (fun a ha => decide_eq_true (hall a ha))]
  exact div_self (by
    have : 0 < amounts.length := List.length_pos.2 hne
    exact_mod_cast Nat.pos_iff_ne_zero.1 this)

/-- The three cadence windows of the spec, with their labels. -/
def cadenceWindows : List (Int × Int × String) :=
  [(6, 8, "weekly"), (27, 33, "monthly"), (358, 372, "yearly")]

/-- Bounds on the average gap from bounds on every gap. -/
theorem avg_gap_bounds {deltas : List Int} {lo hi : Int} (hne : deltas ≠ [])
    (h : ∀ d ∈ deltas, lo ≤ d ∧ d ≤ hi) :
    (lo : ℚ) ≤ ((deltas.sum : Int) : ℚ) / (deltas.length : ℚ)
    ∧ ((deltas.sum : Int) : ℚ) / (deltas.length : ℚ) ≤ (hi : ℚ) := by
  have hn : 0 < deltas.length := List.length_pos.2 hne
  have hnq : (0 : ℚ) < (deltas.length : ℚ) := by exact_mod_cast hn
  have hlow : deltas.length • lo ≤ deltas.sum :=
    List.card_nsmul_le_sum _ _ (fun d hd => (h d hd).1)
  have hhigh : deltas.sum ≤ deltas.length • hi :=
    List.sum_le_card_nsmul _ _ (fun d hd => (h d hd).2)
  rw [nsmul_eq_mul] at hlow hhigh
  constructor
  · rw [le_div_iff hnq]
    have : ((deltas.length : Int) : ℚ) * (lo : ℚ) ≤ ((deltas.sum : Int) : ℚ) := by
      exact_mod_cast hlow
    calc (lo : ℚ) * (deltas.length : ℚ) = (deltas.length : ℚ) * (lo : ℚ) := mul_comm _ _
    _ ≤ ((deltas.sum : Int) : ℚ) := by push_cast at this ⊢; linarith
  · rw [div_le_iff hnq]
    have : ((deltas.sum : Int) : ℚ) ≤ ((deltas.length : Int) : ℚ) * (hi : ℚ) := by
      exact_mod_cast hhigh
    calc ((deltas.sum : Int) : ℚ) ≤ ((deltas.length : Int) : ℚ) * (hi : ℚ) := this
    _ = (hi : ℚ) * (deltas.length : ℚ) := by push_cast; ring

/-- When all gaps lie in one of the three windows, the cadence label picked
from the average gap matches that window. -/
theorem pickCadence_of_window {deltas : List Int} {lo hi : Int} {lab : String}
    (hw : (lo, hi, lab) ∈ cadenceWindows) (hne : deltas ≠ [])
    (h : ∀ d ∈ deltas, lo ≤ d ∧ d ≤ hi) :
    pickCadence deltas = lab := by
  obtain ⟨hlo, hhi⟩ := avg_gap_bounds hne h
  unfold pickCadence
  rw [if_neg (by simpa using hne)]
  dsimp only
  simp only [cadenceWindows, List.mem_cons, List.not_mem_nil, or_false] at hw
  rcases hw with hw | hw | hw
  · obtain ⟨rfl, rfl, rfl⟩ : lo = 6 ∧ hi = 8 ∧ lab = "weekly" := by
      simpa [Prod.ext_iff] using hw
    rw [if_neg (by push_cast at hhi ⊢; intro hx; linarith [hx.1])]
    rw [if_pos (by push_cast at hlo hhi ⊢; exact ⟨by linarith, by linarith⟩)]
  · obtain ⟨rfl, rfl, rfl⟩ : lo = 27 ∧ hi = 33 ∧ lab = "monthly" := by
      simpa [Prod.ext_iff] using hw
    rw [if_pos (by push_cast at hlo hhi ⊢; exact ⟨by linarith, by linarith⟩)]
  · obtain ⟨rfl, rfl, rfl⟩ : lo = 358 ∧ hi = 372 ∧ lab = "yearly" := by
      simpa [Prod.ext_iff] using hw
    rw [if_neg (by push_cast at hlo ⊢; intro hx; linarith [hx.2])]
    rw [if_neg (by push_cast at hlo ⊢; intro hx; linarith [hx.2])]
    rw [if_pos (by push_cast at hlo hhi ⊢; exact ⟨by linarith, by linarith⟩)]

/-- C2: a group (of the detector's grouping) with at least three positive
transactions, all consecutive day-gaps inside a single tolerance window and
all amounts within 10% of the group's median yields a candidate whose
cadence matches that window and whose confidence is at least 0.8. -/
theorem detector_windowed_group_detected (pfr : String → String → ℚ)
    (hpfr : ∀ a b, 0 ≤ pfr a b) (ts : List Txn) (k : GroupKey)
    (lo hi : Int) (lab : String) (hw : (lo, hi, lab) ∈ cadenceWindows)
    (hk : k ∈ groupKeys ts)
    (h3 : 3 ≤ (sortedPositives (groupOf ts k)).length)
    (hg : ∀ d ∈ deltasOf (groupOf ts k), lo ≤ d ∧ d ≤ hi)
    (hs : ∀ a ∈ amountsOf (groupOf ts k),
      |(a : ℚ) - medianQ (amountsOf (groupOf ts k))|
        / medianQ (amountsOf (groupOf ts k)) ≤ 1 / 10) :
    ∃ c, processGroup pfr k.1 (groupOf ts k) = some c
      ∧ c ∈ detect_subscriptions pfr ts
      ∧ c.cadence = lab
      ∧ 4 / 5 ≤ c.confidence := by
  have hne : deltasOf (groupOf ts k) ≠ [] := deltasOf_ne_nil h3
  have hneA : amountsOf (groupOf ts k) ≠ [] := by
    intro hcon
    have := amountsOf_length (groupOf ts k)
    rw [hcon] at this
    simp at this
    omega
  have hp1 : periodicityScore (deltasOf (groupOf ts k)) = 1 := by
    apply periodicityScore_eq_one hne
    have hcw := countInWindow_full hg
    have hw' := hw
    simp only [cadenceWindows, List.mem_cons, List.not_mem_nil, or_false] at hw'
    rcases hw' with hw' | hw' | hw'
    · obtain ⟨rfl, rfl, -⟩ : lo = 6 ∧ hi = 8 ∧ lab = "weekly" := by
        simpa [Prod.ext_iff] using hw'
      exact Or.inl hcw
    · obtain ⟨rfl, rfl, -⟩ : lo = 27 ∧ hi = 33 ∧ lab = "monthly" := by
        simpa [Prod.ext_iff] using hw'
      exact Or.inr (Or.inl hcw)
    · obtain ⟨rfl, rfl, -⟩ : lo = 358 ∧ hi = 372 ∧ lab = "yearly" := by
        simpa [Prod.ext_iff] using hw'
      exact Or.inr (Or.inr hcw)
  have hmed : 0 < medianQ (amountsOf (groupOf ts k)) :=
    medianQ_pos hneA (amountsOf_pos _)
  have hst : stabilityScore (amountsOf (groupOf ts k)) = 1 :=
    stabilityScore_eq_one hneA (ne_of_gt hmed) hs
  have hv : 0 ≤ vocabSignal pfr k.1 := vocabSignal_nonneg hpfr k.1
  have hvconf : rawConfidence pfr k.1 (groupOf ts k)
      = 1 / 2 * 1 + 3 / 10 * 1 + 1 / 5 * vocabSignal pfr k.1 := by
    unfold rawConfidence
    rw [hp1, hst]
  have h_not_lt : ¬ rawConfidence pfr k.1 (groupOf ts k) < 1 / 2 := by
    rw [hvconf]; intro hcon; linarith
  have hPG : processGroup pfr k.1 (groupOf ts k) = some
      { merchant_norm := k.1
        cadence := pickCadence (deltasOf (groupOf ts k))
        amount_cents_min := pyMinI (amountsOf (groupOf ts k))
        amount_cents_max := pyMaxI (amountsOf (groupOf ts k))
        card_last4 := (sortedPositives (groupOf ts k)).head?.bind (·.card_last4)
        first_seen := pyMinI (datesOf (groupOf ts k))
        last_seen := pyMaxI (datesOf (groupOf ts k))
        confidence := roundTo2 (rawConfidence pfr k.1 (groupOf ts k))
        signals :=
          { periodicity := periodicityScore (deltasOf (groupOf ts k))
            stability := stabilityScore (amountsOf (groupOf ts k))
            vocab := vocabSignal pfr k.1
            token_last4 := (sortedPositives (groupOf ts k)).head?.bind (·.token_last4)
            wallet_type := (sortedPositives (groupOf ts k)).head?.bind (·.wallet_type)
            product_hint := (sortedPositives (groupOf ts k)).head?.bind (·.product_hint)
            period_histogram := histogramOf (deltasOf (groupOf ts k))
            amount_min := pyMinI (amountsOf (groupOf ts k))
            amount_max := pyMaxI (amountsOf (groupOf ts k))
            transactions := (sortedPositives (groupOf ts k)).length } } := by
    unfold processGroup
    dsimp only
    rw [if_neg (show ¬ (sortedPositives (groupOf ts k)).length < 3 by omega),
        if_neg h_not_lt]
  refine ⟨_, hPG, List.mem_filterMap.2 ⟨k, hk, hPG⟩, ?_, ?_⟩
  · exact pickCadence_of_window hw hne hg
  · show (4 : ℚ) / 5 ≤ roundTo2 (rawConfidence pfr k.1 (groupOf ts k))
    have h80 : ((80 : ℤ) : ℚ) ≤ 100 * rawConfidence pfr k.1 (groupOf ts k) := by
      rw [hvconf]; push_cast; linarith
    have hfin := roundTo2_ge h80
    push_cast at hfin
    linarith

/-- A zero similarity function (any rapidfuzz stand-in works for the
witnesses; the keyword short-circuit makes the detector independent of it
when a keyword is present). -/
def pfrZero : String → String → ℚ := fun _ _ => 0

/-- First witness transaction for the detector claims (weekly cadence). -/
def txP1 : Txn :=
  { merchant_norm := some "m", merchant_raw := "M", amount_cents := 1000,
    purchased_at := 0, card_last4 := none, token_last4 := none,
    wallet_type := none, product_hint := none }

/-- Second witness transaction, seven days later. -/
def txP2 : Txn := { txP1 with purchased_at := 7 }

/-- Third witness transaction, fourteen days in. -/
def txP3 : Txn := { txP1 with purchased_at := 14 }

/-- The witness history. -/
def tsW : List Txn := [txP1, txP2, txP3]

/-- The witness group key. -/
def kW : GroupKey := ("m", none, none)

/-- C2 witness: three positive 1000-cent transactions spaced 7 days apart
are reported as a weekly candidate with confidence at least 0.8. -/
theorem detector_windowed_group_detected_witness :
    ∃ c, processGroup pfrZero kW.1 (groupOf tsW kW) = some c
      ∧ c ∈ detect_subscriptions pfrZero tsW
      ∧ c.cadence = "weekly"
      ∧ (4 : ℚ) / 5 ≤ c.confidence := by
  have hAm : amountsOf (groupOf tsW kW) = [1000, 1000, 1000] := by decide
  have hMed : medianQ [1000, 1000, 1000] = 1000 := by
    norm_num [medianQ, List.insertionSort, List.orderedInsert]
  apply detector_windowed_group_detected pfrZero (fun a b => le_refl 0) tsW kW 6 8 "weekly"
  · decide
  · decide
  · decide
  · decide
  · intro a ha
    rw [hAm] at ha
    rw [hAm, hMed]
    simp only [List.mem_cons, List.not_mem_nil, or_false] at ha
    rcases ha with rfl | rfl | rfl <;> norm_num

/-- C5: every emitted candidate comes from a group with at least three
positive-amount transactions (its sample size records exactly that count,
and zero-amount transactions are excluded), and a group with fewer than
three positive transactions — in particular any two-transaction group —
yields no candidate. -/
theorem detector_requires_three_positives (pfr : String → String → ℚ) (ts : List Txn) :
    (∀ c ∈ detect_subscriptions pfr ts,
      ∃ k ∈ groupKeys ts, processGroup pfr k.1 (groupOf ts k) = some c
        ∧ 3 ≤ (sortedPositives (groupOf ts k)).length
        ∧ c.signals.transactions = (sortedPositives (groupOf ts k)).length
        ∧ ∀ t ∈ sortedPositives (groupOf ts k), 0 < t.amount_cents)
    ∧ (∀ k : GroupKey, (sortedPositives (groupOf ts k)).length < 3 →
        processGroup pfr k.1 (groupOf ts k) = none) := by
  constructor
  · intro c hc
    obtain ⟨k, hk, hEq⟩ := List.mem_filterMap.1 hc
    refine ⟨k, hk, hEq, ?_⟩
    have hpos : ∀ t ∈ sortedPositives (groupOf ts k), 0 < t.amount_cents := by
      intro t ht
      exact of_decide_eq_true (List.mem_filter.1 ht).2
    unfold processGroup at hEq
    dsimp only at hEq
    by_cases h3 : (sortedPositives (groupOf ts k)).length < 3
    · rw [if_pos h3] at hEq; cases hEq
    · rw [if_neg h3] at hEq
      by_cases hcf : rawConfidence pfr k.1 (groupOf ts k) < 1 / 2
      · rw [if_pos hcf] at hEq; cases hEq
      · rw [if_neg hcf] at hEq
        rw [Option.some.injEq] at hEq
        subst hEq
        exact ⟨by omega, rfl, hpos⟩
  · intro k h3
    unfold processGroup
    dsimp only
    rw [if_pos h3]

/-- The candidate the detector produces from the witness history `tsW`. -/
def cW : SubscriptionCandidate :=
  { merchant_norm := "m", cadence := "weekly", amount_cents_min := 1000,
    amount_cents_max := 1000, card_last4 := none, first_seen := 0, last_seen := 14,
    confidence := 4 / 5,
    signals :=
      { periodicity := 1, stability := 1, vocab := 0, token_last4 := none,
        wallet_type := none, product_hint := none, period_histogram := (2, 0, 0, 0),
        amount_min := 1000, amount_max := 1000, transactions := 3 } }

/-- Median of the witness amounts. -/
theorem medianQ_eval : medianQ [1000, 1000, 1000] = 1000 := by
  norm_num [medianQ, List.insertionSort, List.orderedInsert, List.getD]

/-- Stability of the witness amounts. -/
theorem stability_eval : stabilityScore [1000, 1000, 1000] = 1 := by
  apply stabilityScore_eq_one (by decide) (by rw [medianQ_eval]; norm_num)
  intro a ha
  rw [medianQ_eval]
  simp only [List.mem_cons, List.not_mem_nil, or_false] at ha
  rcases ha with rfl | rfl | rfl <;> norm_num

/-- Vocabulary signal of the witness merchant under the zero similarity. -/
theorem vocab_eval : vocabSignal pfrZero "m" = 0 := by
  unfold vocabSignal
  rw [if_neg (by decide)]
  norm_num [subscriptionKeywords, pfrZero, pyMaxQ]

/-- `round(0.8, 2) = 0.8`. -/
theorem roundTo2_eval : roundTo2 (4 / 5 : ℚ) = 4 / 5 := by
  unfold roundTo2 roundHalfEven
  rw [show (100 : ℚ) * (4 / 5) = ((80 : ℤ) : ℚ) by norm_num, Int.floor_intCast]
  norm_num

/-- Cadence of the witness gaps. -/
theorem pickCadence_eval : pickCadence [7, 7] = "weekly" := by
  unfold pickCadence
  rw [if_neg (by decide)]
  dsimp only
  rw [show (List.sum ([7, 7] : List Int)) = 14 from by decide,
    show (([7, 7] : List Int)).length = 2 from by decide]
  rw [if_neg (by norm_num), if_pos (by norm_num)]

/-- Raw weighted sum on the witness group. -/
theorem rawConfidence_eval : rawConfidence pfrZero kW.1 (groupOf tsW kW) = 4 / 5 := by
  unfold rawConfidence
  rw [show groupOf tsW kW = tsW from by decide,
    show deltasOf tsW = [7, 7] from by decide,
    show amountsOf tsW = [1000, 1000, 1000] from by decide,
    periodicityScore_eq_one (by decide) (Or.inl (by decide)), stability_eval,
    show kW.1 = "m" from rfl, vocab_eval]
  norm_num

/-- The detector's output on the witness history, computed in full. -/
theorem processGroup_eval : processGroup pfrZero kW.1 (groupOf tsW kW) = some cW := by
  unfold processGroup
  dsimp only
  rw [if_neg (show ¬ (sortedPositives (groupOf tsW kW)).length < 3 from by decide),
    if_neg (show ¬ rawConfidence pfrZero kW.1 (groupOf tsW kW) < 1 / 2 from by
      rw [rawConfidence_eval]; norm_num)]
  rw [rawConfidence_eval, roundTo2_eval]
  rw [show groupOf tsW kW = tsW from by decide,
    show deltasOf tsW = [7, 7] from by decide,
    show amountsOf tsW = [1000, 1000, 1000] from by decide,
    show datesOf tsW = [0, 7, 14] from by decide,
    periodicityScore_eq_one (by decide) (Or.inl (by decide)), stability_eval,
    show kW.1 = "m" from rfl, vocab_eval, pickCadence_eval]
  rw [show pyMinI [1000, 1000, 1000] = 1000 from by decide,
    show pyMaxI [1000, 1000, 1000] = 1000 from by decide,
    show pyMinI [0, 7, 14] = 0 from by decide,
    show pyMaxI [0, 7, 14] = 14 from by decide,
    show histogramOf [7, 7] = (2, 0, 0, 0) from by decide,
    show (sortedPositives tsW).head?.bind (fun t => t.card_last4) = none from by decide,
    show (sortedPositives tsW).head?.bind (fun t => t.token_last4) = none from by decide,
    show (sortedPositives tsW).head?.bind (fun t => t.wallet_type) = none from by decide,
    show (sortedPositives tsW).head?.bind (fun t => t.product_hint) = none from by decide,
    show (sortedPositives tsW).length = 3 from by decide]
  rfl

/-- Full evaluation of `detect_subscriptions` on the witness history. -/
theorem detect_eval : detect_subscriptions pfrZero tsW = [cW] := by
  unfold detect_subscriptions
  rw [show groupKeys tsW = [kW] from by decide]
  simp only [List.filterMap_cons, List.filterMap_nil, processGroup_eval]

/-- C5 witness: the three-transaction witness group is reported with sample
size 3, and a key with no matching transactions yields no candidate. -/
theorem detector_requires_three_positives_witness :
    (∃ k ∈ groupKeys tsW, processGroup pfrZero k.1 (groupOf tsW k) = some cW
      ∧ 3 ≤ (sortedPositives (groupOf tsW k)).length
      ∧ cW.signals.transactions = (sortedPositives (groupOf tsW k)).length
      ∧ ∀ t ∈ sortedPositives (groupOf tsW k), 0 < t.amount_cents)
    ∧ processGroup pfrZero (("nope", none, none) : GroupKey).1
        (groupOf tsW (("nope", none, none) : GroupKey)) = none :=
  ⟨(detector_requires_three_positives pfrZero tsW).1 cW
    (by rw [detect_eval]; exact List.mem_singleton_self _),
   (detector_requires_three_positives pfrZero tsW).2 (("nope", none, none) : GroupKey)
     (by decide)⟩

/-! ### Claim C4 — confidence rounding versus the discard filter -/

/-- C4 (amended): the reported confidence is `round(0.5·p + 0.3·s + 0.2·v, 2)`,
but the discard filter compares the *unrounded* weighted sum with 0.5: a
group (of size ≥ 3) is reported exactly when the unrounded sum is at least
0.5. -/
theorem confidence_rounded_filter_unrounded (pfr : String → String → ℚ)
    (merchant : String) (g : List Txn) (c : SubscriptionCandidate) :
    (processGroup pfr merchant g = some c →
      c.confidence = roundTo2 (rawConfidence pfr merchant g))
    ∧ (3 ≤ (sortedPositives g).length →
        ((processGroup pfr merchant g).isSome ↔ 1 / 2 ≤ rawConfidence pfr merchant g)) := by
  constructor
  · intro hEq
    unfold processGroup at hEq
    dsimp only at hEq
    by_cases h3 : (sortedPositives g).length < 3
    · rw [if_pos h3] at hEq; cases hEq
    · rw [if_neg h3] at hEq
      by_cases hcf : rawConfidence pfr merchant g < 1 / 2
      · rw [if_pos hcf] at hEq; cases hEq
      · rw [if_neg hcf] at hEq
        rw [Option.some.injEq] at hEq
        subst hEq
        rfl
  · intro h3
    unfold processGroup
    dsimp only
    rw [if_neg (show ¬ (sortedPositives g).length < 3 by omega)]
    by_cases hcf : rawConfidence pfr merchant g < 1 / 2
    · rw [if_pos hcf]
      simp only [Option.isSome_none, Bool.false_eq_true, false_iff, not_le]
      exact hcf
    · rw [if_neg hcf]
      simp only [Option.isSome_some, true_iff]
      exact not_lt.1 hcf

/-- C4 witness: on the three-transaction witness group the reported
confidence is the rounded weighted sum, and the group is reported since the
unrounded sum reaches 0.5. -/
theorem confidence_rounded_filter_unrounded_witness :
    cW.confidence = roundTo2 (rawConfidence pfrZero kW.1 (groupOf tsW kW))
    ∧ ((processGroup pfrZero kW.1 (groupOf tsW kW)).isSome ↔
        1 / 2 ≤ rawConfidence pfrZero kW.1 (groupOf tsW kW)) :=
  ⟨(confidence_rounded_filter_unrounded pfrZero kW.1 (groupOf tsW kW) cW).1
      processGroup_eval,
   (confidence_rounded_filter_unrounded pfrZero kW.1 (groupOf tsW kW) cW).2 (by decide)⟩

/-- A transaction of the C4 counterexample group; merchant carries a
subscription keyword, so the vocabulary signal is 1. -/
def txX (d : ℚ) (amt : Int) : Txn :=
  { merchant_norm := some "subscription", merchant_raw := "S", amount_cents := amt,
    purchased_at := d, card_last4 := none, token_last4 := none,
    wallet_type := none, product_hint := none }

/-- The C4 counterexample history: 7 transactions, 2 of 6 gaps weekly,
3 of 7 amounts within 10% of the median. -/
def tsX : List Txn :=
  [txX 0 50, txX 7 60, txX 14 100, txX 15 100, txX 17 100, txX 20 300, txX 120 400]

/-- The counterexample group key. -/
def kX : GroupKey := ("subscription", none, none)

/-- Periodicity of the counterexample gaps is 1/3. -/
theorem periodicity_evalX : periodicityScore [7, 7, 1, 2, 3, 100] = 1 / 3 := by
  unfold periodicityScore
  rw [if_neg (by decide)]
  dsimp only
  rw [show countInWindow [7, 7, 1, 2, 3, 100] 6 8 = 2 from by decide,
    show countInWindow [7, 7, 1, 2, 3, 100] 27 33 = 0 from by decide,
    show countInWindow [7, 7, 1, 2, 3, 100] 358 372 = 0 from by decide,
    show (([7, 7, 1, 2, 3, 100] : List Int)).length = 6 from by decide,
    show (max 2 (max 0 0) : ℕ) = 2 from by decide,
    show (max 1 6 : ℕ) = 6 from by decide]
  rw [min_eq_right (by norm_num)]
  norm_num

/-- Stability of the counterexample amounts is 3/7. -/
theorem stability_evalX : stabilityScore [50, 60, 100, 100, 100, 300, 400] = 3 / 7 := by
  unfold stabilityScore
  rw [if_neg (by decide)]
  have hmed : medianQ [50, 60, 100, 100, 100, 300, 400] = 100 := by
    norm_num [medianQ, List.insertionSort, List.orderedInsert, List.getD]
  rw [hmed]
  rw [if_neg (by norm_num)]
  rw [show List.filter (fun a : Int => decide (|(a : ℚ) - 100| / 100 ≤ 1 / 10))
      [50, 60, 100, 100, 100, 300, 400] = [100, 100, 100] from by
    norm_num [List.filter_cons, List.filter_nil]]
  norm_num

/-- Vocabulary signal of the counterexample merchant is 1 (keyword hit). -/
theorem vocab_evalX : vocabSignal pfrZero "subscription" = 1 := by
  unfold vocabSignal
  rw [if_pos (by decide)]

/-- Raw weighted sum of the counterexample group: 52/105 ≈ 0.495 < 0.5. -/
theorem rawConfidence_evalX : rawConfidence pfrZero kX.1 (groupOf tsX kX) = 52 / 105 := by
  unfold rawConfidence
  rw [show groupOf tsX kX = tsX from by decide,
    show deltasOf tsX = [7, 7, 1, 2, 3, 100] from by decide,
    show amountsOf tsX = [50, 60, 100, 100, 100, 300, 400] from by decide,
    periodicity_evalX, stability_evalX, show kX.1 = "subscription" from rfl, vocab_evalX]
  norm_num

/-- `round(52/105, 2) = 0.5`. -/
theorem roundTo2_evalX : roundTo2 (52 / 105 : ℚ) = 1 / 2 := by
  unfold roundTo2 roundHalfEven
  have hprod : (100 : ℚ) * (52 / 105) = 1040 / 21 := by norm_num
  have hfl : ⌊(1040 / 21 : ℚ)⌋ = 49 := by
    rw [Int.floor_eq_iff]
    constructor <;> norm_num
  rw [hprod, hfl]
  rw [if_neg (by norm_num), if_pos (by norm_num)]
  norm_num

/-- C4 counterexample: the counterexample group has 7 positive
transactions and its weighted sum rounds to 0.5, yet the detector discards
it — the filter uses the unrounded sum (52/105 < 1/2), so the claim
"exactly the groups whose rounded confidence is below 0.5 are discarded"
fails. -/
theorem confidence_rounding_discard_counterexample :
    groupKeys tsX = [kX]
    ∧ (sortedPositives (groupOf tsX kX)).length = 7
    ∧ roundTo2 (rawConfidence pfrZero kX.1 (groupOf tsX kX)) = 1 / 2
    ∧ detect_subscriptions pfrZero tsX = [] := by
  have hPGX : processGroup pfrZero kX.1 (groupOf tsX kX) = none := by
    unfold processGroup
    dsimp only
    rw [if_neg (by decide), if_pos (by rw [rawConfidence_evalX]; norm_num)]
  refine ⟨by decide, by decide, ?_, ?_⟩
  · rw [rawConfidence_evalX, roundTo2_evalX]
  · unfold detect_subscriptions
    rw [show groupKeys tsX = [kX] from by decide]
    simp only [List.filterMap_cons, List.filterMap_nil, hPGX]

/-! ### Claim C6 — ingestion idempotence -/

/-- With a truthy message id, `synthPid` is the parsed id and consumes no
fresh uuid. -/
theorem synthPid_real {e : RawEmail} {s : String} (hs : e.message_id = some s)
    (hne : s ≠ "") (db : Db) : synthPid e db = (PId.real s, db) := by
  unfold synthPid
  rw [if_pos (by rw [hs]; simp [strTruthy, hne]), hs]
  rfl

/-- After processing an email with a real message id, a Message with that
`(user, provider_msg_id)` pair exists (it was found or just inserted). -/
theorem processEmail_mem_after (plugins : List Plugin) (retention : Bool) (user : String)
    (now : ℚ) (e : RawEmail) (db : Db) (stats : ImportStats) (s : String)
    (hs : e.message_id = some s) (hne : s ≠ "") :
    ∃ m ∈ (processEmail plugins retention user now e db stats).1.messages,
      m.user_id = user ∧ m.provider_msg_id = PId.real s := by
  unfold processEmail
  rw [synthPid_real hs hne]
  dsimp only
  by_cases hdup : db.messages.any
      (fun m => decide (m.user_id = user ∧ m.provider_msg_id = PId.real s)) = true
  · rw [if_pos hdup]
    obtain ⟨m, hm, hp⟩ := List.any_eq_true.1 hdup
    exact ⟨m, hm, of_decide_eq_true hp⟩
  · rw [if_neg hdup]
    rcases hext : extractTransactionData plugins e (e.date.getD now) with _ | td <;>
      dsimp only
    · exact ⟨_, List.mem_append_right _ (List.mem_singleton_self _), rfl, rfl⟩
    · exact ⟨_, List.mem_append_right _ (List.mem_singleton_self _), rfl, rfl⟩

/-- Processing an email with a real id already present for the user is the
pure duplicate outcome. -/
theorem processEmail_dup (plugins : List Plugin) (retention : Bool) (user : String)
    (now : ℚ) (e : RawEmail) (db : Db) (stats : ImportStats) (s : String)
    (hs : e.message_id = some s) (hne : s ≠ "")
    (hmem : ∃ m ∈ db.messages, m.user_id = user ∧ m.provider_msg_id = PId.real s) :
    processEmail plugins retention user now e db stats
      = (db, { stats with duplicates := stats.duplicates + 1 }) := by
  obtain ⟨m, hm, hmu, hmp⟩ := hmem
  unfold processEmail
  rw [synthPid_real hs hne]
  dsimp only
  rw [if_pos (List.any_eq_true.2 ⟨m, hm, decide_eq_true ⟨hmu, hmp⟩⟩)]

/-- C6 (amended): when the parsed payload carries a (nonempty) provider
message id, ingesting it a second time for the same user is idempotent: the
duplicate counter increments by one and the database — messages and
transactions alike — is untouched. -/
theorem ingest_idempotent_with_msgid (plugins : List Plugin) (retention : Bool)
    (user : String) (now : ℚ) (e : RawEmail) (db : Db) (stats : ImportStats)
    (s : String) (hs : e.message_id = some s) (hne : s ≠ "") :
    processEmail plugins retention user now e
        (processEmail plugins retention user now e db stats).1
        (processEmail plugins retention user now e db stats).2
      = ((processEmail plugins retention user now e db stats).1,
         { (processEmail plugins retention user now e db stats).2 with
            duplicates :=
              (processEmail plugins retention user now e db stats).2.duplicates + 1 }) :=
  processEmail_dup plugins retention user now e _ _ s hs hne
    (processEmail_mem_after plugins retention user now e db stats s hs hne)

/-- An id-less payload (no `Message-ID` header). -/
def eNoId : RawEmail :=
  { message_id := none, from_addr := "", subject := "", date := none, body := "" }

/-- The empty database state. -/
def db0 : Db := { messages := [], transactions := [], fresh := 0 }

/-- C6 counterexample: for a payload without a provider message id the code
synthesizes a fresh `local-{uuid4()}` id on every run, so ingesting the
identical payload twice stores two Messages and counts no duplicate. -/
theorem ingest_idempotent_counterexample :
    ((processEmail [] false "u" 0 eNoId
        (processEmail [] false "u" 0 eNoId db0 {}).1
        (processEmail [] false "u" 0 eNoId db0 {}).2).1.messages.length = 2)
    ∧ ((processEmail [] false "u" 0 eNoId
        (processEmail [] false "u" 0 eNoId db0 {}).1
        (processEmail [] false "u" 0 eNoId db0 {}).2).2.duplicates = 0)
    ∧ ((processEmail [] false "u" 0 eNoId
        (processEmail [] false "u" 0 eNoId db0 {}).1
        (processEmail [] false "u" 0 eNoId db0 {}).2).2.ingested_messages = 2) := by
  have hext0 : ∀ (e : RawEmail) (r : ℚ), extractTransactionData [] e r = none := by
    intro e r
    unfold extractTransactionData pickExtractor pickBest
    rw [if_pos (by norm_num [MIN_SCORE])]
  refine ⟨?_, ?_, ?_⟩ <;>
    simp [processEmail, synthPid, strTruthy, eNoId, db0, hext0]

/-- A payload with a provider message id, for the C6 witness. -/
def eId6 : RawEmail :=
  { message_id := some "m6", from_addr := "", subject := "", date := none, body := "" }

/-- C6 witness: processing the id-carrying payload twice from the empty
database leaves the database of the first run untouched and counts one
duplicate. -/
theorem ingest_idempotent_with_msgid_witness :
    processEmail [] false "u" 0 eId6
        (processEmail [] false "u" 0 eId6 db0 {}).1
        (processEmail [] false "u" 0 eId6 db0 {}).2
      = ((processEmail [] false "u" 0 eId6 db0 {}).1,
         { (processEmail [] false "u" 0 eId6 db0 {}).2 with
            duplicates := (processEmail [] false "u" 0 eId6 db0 {}).2.duplicates + 1 }) :=
  ingest_idempotent_with_msgid [] false "u" 0 eId6 db0 {} "m6" rfl (by decide)

/-! ### Claim C7 — batch totality and item-local failures -/

/-- `_process_email` never touches the processed counter. -/
theorem processEmail_processed (plugins : List Plugin) (retention : Bool) (user : String)
    (now : ℚ) (e : RawEmail) (db : Db) (stats : ImportStats) :
    (processEmail plugins retention user now e db stats).2.processed = stats.processed := by
  unfold processEmail
  dsimp only
  split
  · rfl
  · split <;> rfl

/-- `_process_email` never touches the error list. -/
theorem processEmail_errors (plugins : List Plugin) (retention : Bool) (user : String)
    (now : ℚ) (e : RawEmail) (db : Db) (stats : ImportStats) :
    (processEmail plugins retention user now e db stats).2.errors = stats.errors := by
  unfold processEmail
  dsimp only
  split
  · rfl
  · split <;> rfl

/-- One loop iteration always increments processed by exactly one. -/
theorem importStep_processed (plugins : List Plugin) (retention : Bool) (user : String)
    (now : ℚ) (acc : Db × ImportStats) (item : EmlItem) :
    (importStep plugins retention user now acc item).2.processed
      = acc.2.processed + 1 := by
  rcases item with ⟨f, m⟩ | ⟨f⟩ | ⟨f, m⟩ | ⟨e⟩ <;>
    simp [importStep, processEmail_processed]

/-- One loop iteration appends one error string for a failing item and none
for a parsed one. -/
theorem importStep_errors (plugins : List Plugin) (retention : Bool) (user : String)
    (now : ℚ) (acc : Db × ImportStats) (item : EmlItem) :
    (importStep plugins retention user now acc item).2.errors.length
      = acc.2.errors.length + (if isEmlFailure item then 1 else 0) := by
  rcases item with ⟨f, m⟩ | ⟨f⟩ | ⟨f, m⟩ | ⟨e⟩ <;>
    simp [importStep, isEmlFailure, processEmail_errors]

/-- A failing upload only counts itself and appends its error string: the
database and all other counters are untouched. -/
theorem importStep_failure_local (plugins : List Plugin) (retention : Bool) (user : String)
    (now : ℚ) (acc : Db × ImportStats) (item : EmlItem) (err : String)
    (hfail : emlItemError item = some err) :
    importStep plugins retention user now acc item
      = (acc.1, { acc.2 with processed := acc.2.processed + 1,
                             errors := acc.2.errors ++ [err] }) := by
  rcases item with ⟨f, m⟩ | ⟨f⟩ | ⟨f, m⟩ | ⟨e⟩ <;>
    simp only [emlItemError, Option.some.injEq] at hfail <;>
    first
    | (subst hfail; rfl)
    | cases hfail

/-- Processed count over an upload batch, with a general accumulator. -/
theorem import_fold_processed (plugins : List Plugin) (retention : Bool) (user : String)
    (now : ℚ) (items : List EmlItem) :
    ∀ acc : Db × ImportStats,
      (items.foldl (importStep plugins retention user now) acc).2.processed
        = acc.2.processed + items.length := by
  induction items with
  | nil => intro acc; simp
  | cons it rest ih =>
    intro acc
    rw [List.foldl_cons, ih, importStep_processed]
    simp only [List.length_cons]
    omega

/-- Error count over an upload batch equals the failing-item count. -/
theorem import_fold_errors (plugins : List Plugin) (retention : Bool) (user : String)
    (now : ℚ) (items : List EmlItem) :
    ∀ acc : Db × ImportStats,
      (items.foldl (importStep plugins retention user now) acc).2.errors.length
        = acc.2.errors.length + (items.filter (fun i => isEmlFailure i)).length := by
  induction items with
  | nil => intro acc; simp
  | cons it rest ih =>
    intro acc
    rw [List.foldl_cons, ih, importStep_errors]
    by_cases hf : isEmlFailure it = true <;>
      simp [List.filter_cons, hf] <;> omega

/-- An all-failing batch leaves the database and every ingestion counter
untouched. -/
theorem import_fold_allfail (plugins : List Plugin) (retention : Bool) (user : String)
    (now : ℚ) (items : List EmlItem) :
    ∀ acc : Db × ImportStats, (∀ i ∈ items, isEmlFailure i = true) →
      (items.foldl (importStep plugins retention user now) acc).1 = acc.1
      ∧ (items.foldl (importStep plugins retention user now) acc).2.ingested_messages
          = acc.2.ingested_messages
      ∧ (items.foldl (importStep plugins retention user now) acc).2.transactions_created
          = acc.2.transactions_created
      ∧ (items.foldl (importStep plugins retention user now) acc).2.duplicates
          = acc.2.duplicates
      ∧ (items.foldl (importStep plugins retention user now) acc).2.no_match
          = acc.2.no_match := by
  induction items with
  | nil => intro acc _; exact ⟨rfl, rfl, rfl, rfl, rfl⟩
  | cons it rest ih =>
    intro acc hall
    rw [List.foldl_cons]
    have hstep : ∃ err, emlItemError it = some err := by
      have := hall it (List.mem_cons_self _ _)
      rcases it with ⟨f, m⟩ | ⟨f⟩ | ⟨f, m⟩ | ⟨e⟩
      · exact ⟨_, rfl⟩
      · exact ⟨_, rfl⟩
      · exact ⟨_, rfl⟩
      · cases this
    obtain ⟨err, herr⟩ := hstep
    rw [importStep_failure_local plugins retention user now acc it err herr]
    exact ih _ (fun i hi => hall i (List.mem_cons_of_mem _ hi))

/-- One raw-message iteration always increments processed by one. -/
theorem rawStep_processed (plugins : List Plugin) (retention : Bool) (user : String)
    (now : ℚ) (acc : Db × ImportStats) (item : RawItem) :
    (rawStep plugins retention user now acc item).2.processed = acc.2.processed + 1 := by
  rcases item with ⟨m⟩ | ⟨e⟩ <;> simp [rawStep, processEmail_processed]

/-- One raw-message iteration appends one error string exactly on failure. -/
theorem rawStep_errors (plugins : List Plugin) (retention : Bool) (user : String)
    (now : ℚ) (acc : Db × ImportStats) (item : RawItem) :
    (rawStep plugins retention user now acc item).2.errors.length
      = acc.2.errors.length + (if isRawFailure item then 1 else 0) := by
  rcases item with ⟨m⟩ | ⟨e⟩ <;> simp [rawStep, isRawFailure, processEmail_errors]

/-- Processed count over a raw-message batch. -/
theorem raw_fold_processed (plugins : List Plugin) (retention : Bool) (user : String)
    (now : ℚ) (items : List RawItem) :
    ∀ acc : Db × ImportStats,
      (items.foldl (rawStep plugins retention user now) acc).2.processed
        = acc.2.processed + items.length := by
  induction items with
  | nil => intro acc; simp
  | cons it rest ih =>
    intro acc
    rw [List.foldl_cons, ih, rawStep_processed]
    simp only [List.length_cons]
    omega

/-- Error count over a raw-message batch equals its failing-item count. -/
theorem raw_fold_errors (plugins : List Plugin) (retention : Bool) (user : String)
    (now : ℚ) (items : List RawItem) :
    ∀ acc : Db × ImportStats,
      (items.foldl (rawStep plugins retention user now) acc).2.errors.length
        = acc.2.errors.length + (items.filter (fun i => isRawFailure i)).length := by
  induction items with
  | nil => intro acc; simp
  | cons it rest ih =>
    intro acc
    rw [List.foldl_cons, ih, rawStep_errors]
    by_cases hf : isRawFailure it = true <;>
      simp [List.filter_cons, hf] <;> omega

/-- C7: both batch entry points return a complete summary: every payload
increments processed exactly once; every per-item failure appends exactly
one error string and leaves the database and the other counters of that
step untouched; and an all-failing batch returns the summary with an
untouched database and zeroed ingestion counters. -/
theorem batch_returns_complete_summary (plugins : List Plugin) (retention : Bool)
    (user : String) (now : ℚ) (items : List EmlItem) (ritems : List RawItem) (db : Db) :
    (import_eml_files plugins retention user now items db).2.processed = items.length
    ∧ (import_eml_files plugins retention user now items db).2.errors.length
        = (items.filter (fun i => isEmlFailure i)).length
    ∧ (∀ acc : Db × ImportStats, ∀ item err, emlItemError item = some err →
        importStep plugins retention user now acc item
          = (acc.1, { acc.2 with processed := acc.2.processed + 1,
                                 errors := acc.2.errors ++ [err] }))
    ∧ ((∀ i ∈ items, isEmlFailure i = true) →
        (import_eml_files plugins retention user now items db).1 = db
        ∧ (import_eml_files plugins retention user now items db).2.ingested_messages = 0
        ∧ (import_eml_files plugins retention user now items db).2.transactions_created = 0
        ∧ (import_eml_files plugins retention user now items db).2.duplicates = 0
        ∧ (import_eml_files plugins retention user now items db).2.no_match = 0)
    ∧ (ingest_raw_messages plugins retention user now ritems db).2.processed = ritems.length
    ∧ (ingest_raw_messages plugins retention user now ritems db).2.errors.length
        = (ritems.filter (fun i => isRawFailure i)).length := by
  refine ⟨?_, ?_, ?_, ?_, ?_, ?_⟩
  · rw [import_eml_files, import_fold_processed]
    simp
  · rw [import_eml_files, import_fold_errors]
    simp
  · intro acc item err herr
    exact importStep_failure_local plugins retention user now acc item err herr
  · intro hall
    exact import_fold_allfail plugins retention user now items (db, {}) hall
  · rw [ingest_raw_messages, raw_fold_processed]
    simp
  · rw [ingest_raw_messages, raw_fold_errors]
    simp

/-- The witness batch: three failing uploads of each kind. -/
def itemsW : List EmlItem :=
  [EmlItem.readError "a.eml" "boom", EmlItem.emptyFile "b.eml",
   EmlItem.parseError "c.eml" "bad header"]

/-- The witness raw-message batch: one failing item. -/
def ritemsW : List RawItem := [RawItem.parseError "bad"]

/-- C7 witness: the all-failing three-item batch still returns the full
summary — three processed, three errors, database untouched, all ingestion
counters zero. -/
theorem batch_returns_complete_summary_witness :
    (import_eml_files [] false "u" 0 itemsW db0).2.processed = itemsW.length
    ∧ (import_eml_files [] false "u" 0 itemsW db0).2.errors.length
        = (itemsW.filter (fun i => isEmlFailure i)).length
    ∧ (import_eml_files [] false "u" 0 itemsW db0).1 = db0
    ∧ (import_eml_files [] false "u" 0 itemsW db0).2.ingested_messages = 0
    ∧ (ingest_raw_messages [] false "u" 0 ritemsW db0).2.processed = ritemsW.length
    ∧ importStep [] false "u" 0 (db0, {}) (EmlItem.emptyFile "b.eml")
        = ((db0, ({} : ImportStats)).1,
           { (db0, ({} : ImportStats)).2 with
              processed := (db0, ({} : ImportStats)).2.processed + 1,
              errors := (db0, ({} : ImportStats)).2.errors ++ ["b.eml: empty_file"] }) :=
  have h := batch_returns_complete_summary [] false "u" 0 itemsW ritemsW db0
  ⟨h.1, h.2.1, (h.2.2.2.1 (by decide)).1, (h.2.2.2.1 (by decide)).2.1, h.2.2.2.2.1,
   h.2.2.1 (db0, {}) (EmlItem.emptyFile "b.eml") "b.eml: empty_file" rfl⟩

/-! ### Claim C8 — uniqueness violations are not caught -/

/-- The duplicated payload of the C8 demonstration. -/
def eDup : RawEmail :=
  { message_id := some "m1", from_addr := "", subject := "", date := none, body := "" }

/-- A Message committed by a concurrent writer (even a different user —
the actual constraint is on `provider_msg_id` alone) between the duplicate
check and the INSERT. -/
def msgOther : Msg :=
  { id := 99, user_id := "other", provider_msg_id := PId.real "m1", from_addr := "",
    subject := "", received_at := 0, card_hint := none, issuer_hint := none,
    raw_kept := false }

/-- C8: when the INSERT hits the unique constraint on `provider_msg_id`
(the duplicate check saw a snapshot without the concurrent row), the
pipeline propagates the `IntegrityError` — there is no handler turning it
into a duplicate outcome — while the same call without the concurrent row
succeeds with no duplicate counted. -/
theorem unique_violation_propagates :
    processEmailWithConstraint [] false "u" 0 eDup [msgOther] db0 {}
      = Except.error "IntegrityError: UNIQUE constraint failed: messages.provider_msg_id" := by
  simp [processEmailWithConstraint, synthPid, strTruthy, eDup, db0, msgOther,
    insertMessageUnique]
